import Mathlib

/-!
# Storm-tide ANN inference: shallow embedding and verified properties

Sources embedded here:
* `src/stormtide_ann_inference.cpp` (the fixed-size pipeline),
* `src/stormtide_ann_csv.cpp` (the CSV pipeline).

Modelling conventions.
* `double` is modelled by an arbitrary linear ordered field `α` (exact arithmetic; `ℚ` gives an
  executable instance, `ℝ` the intended one). Rounding, infinities and NaN are outside the model.
* `std::exp` is a parameter `exp : α → α` of the functions that call it.
* `int` is modelled by `Int` without wraparound: every count in the programs is the size of an
  in-memory `std::vector<double>`.
* `std::vector<double>` is a `List α`. `operator[]` is unchecked in C++; an index outside the
  vector is undefined behaviour, which the model makes observable as the error `Err.outOfRange`.
* `die(msg)` throws; every function that can throw returns `Except Err _`, with one constructor
  of `Err` per kind of message.
* A `for (int i = 0; i < n; ++i)` loop is `forLoop n.toNat body`, running `body 0`, `body 1`, ...
  in this order on an explicit state.
* An input file is the list of the reads of its number parser (`Tok`). The two parsers,
  `operator>>` and `std::stod`, are embedded on characters (`streamRead`, `strtodDec`), and
  `lexStream`, `classifyCell` give the reads of a text.
-/

namespace StormTide

/-- The failures of the programs: one constructor per `die` message, plus the exceptions of the
standard library and the out-of-range vector access. -/
inductive Err where
  /-- Thrown by `die("Failed to open file: " + path)`, `die("Failed to open CSV: " + path)`. -/
  | openFailed (path : String)
  /-- Thrown by `die("No numeric data found in: " + path)`, `die("CSV has no data: " + path)`. -/
  | noData (path : String)
  /-- Thrown by `die("Size mismatch in " + path + " (expected " + ... + ", got " + ... + ")")`:
  the path, the expected count `rows * cols` (or `n`) and the count `nums.size()`. -/
  | sizeMismatch (path : String) (expected : Int) (got : Nat)
  /-- Thrown by `die("CSV column mismatch: " + path)`. -/
  | colMismatch (path : String)
  /-- Thrown by `die("Vector CSV must be 1xN or Nx1: " + path)`. -/
  | vectorShape (path : String)
  /-- Thrown by `die("matmul dimension mismatch")`. -/
  | matmulDim
  /-- Thrown by `die("addBiasCol: bias size mismatch")`. -/
  | biasSize
  /-- Thrown by the shape checks of the two `main` functions, with their message. -/
  | shape (msg : String)
  /-- The exception `std::invalid_argument` thrown by `std::stod`. It is caught in `main` as a
  `std::exception` and only its `what()` text is printed, a fixed text of the standard library
  that carries neither the cell nor the path. -/
  | stod
  /-- Thrown by `die("Failed to write: " + path)`, `die("Failed to write prediction_matrix.csv")`. -/
  | writeFailed (path : String)
  /-- The exception `std::length_error` thrown by `std::vector<double>(n)` for a negative `n`. -/
  | lengthError
  /-- An unchecked `operator[]` outside the vector (undefined behaviour in C++). -/
  | outOfRange
  deriving DecidableEq, Repr

variable {α : Type}

/-! ## Vectors and the `Matrix` struct -/

/-- The constructor `std::vector<double> v(n, x)` for an `int n`. -/
def vecNew (n : Int) (x : α) : Except Err (List α) :=
  if n < 0 then .error .lengthError else .ok (List.replicate n.toNat x)

/-- The read `v[i]`, for an `int i`. -/
def vecGet (v : List α) (i : Int) : Except Err α :=
  if 0 ≤ i then
    match v[i.toNat]? with
    | some x => .ok x
    | none => .error .outOfRange
  else .error .outOfRange

/-- The write `v[i] = x`, for an `int i`. -/
def vecSet (v : List α) (i : Int) (x : α) : Except Err (List α) :=
  if 0 ≤ i ∧ i.toNat < v.length then .ok (v.set i.toNat x) else .error .outOfRange

/-- The struct `Matrix { int r, c; vector<double> a; }`, row-major. -/
structure Matrix (α : Type) where
  r : Int
  c : Int
  a : List α
  deriving Repr, DecidableEq

/-- The constructor `Matrix(int rows, int cols, double v = 0.0) : r(rows), c(cols),
a(rows * cols, v)`. -/
def Matrix.new (rows cols : Int) (v : α) : Except Err (Matrix α) := do
  let a ← vecNew (rows * cols) v
  pure ⟨rows, cols, a⟩

/-- The read `M(i, j)`: `double operator()(int i, int j) const { return a[i * c + j]; }`. -/
def Matrix.get (M : Matrix α) (i j : Int) : Except Err α :=
  vecGet M.a (i * M.c + j)

/-- The write `M(i, j) = x` through
`double& operator()(int i, int j) { return a[i * c + j]; }`. -/
def Matrix.set (M : Matrix α) (i j : Int) (x : α) : Except Err (Matrix α) := do
  let a ← vecSet M.a (i * M.c + j) x
  pure { M with a := a }

/-- The loop `for (int i = 0; i < n; ++i) body(i)` on an explicit state: `body 0`, then `body 1`, ...,
then `body (n - 1)`; the first failure aborts the loop. -/
def forLoop {σ : Type} (n : Nat) (body : Nat → σ → Except Err σ) (s : σ) : Except Err σ :=
  match n with
  | 0 => .ok s
  | k + 1 => do
    let s' ← forLoop k body s
    body k s'

/-! ## Math operations (identical in both programs) -/

section ops
variable [LinearOrderedField α]

/-- The function `transpose` of `stormtide_ann_csv.cpp`. -/
def transpose (A : Matrix α) : Except Err (Matrix α) := do
  let T ← Matrix.new A.c A.r 0
  forLoop A.r.toNat (fun i T =>
    forLoop A.c.toNat (fun j T => do
      let x ← A.get i j
      T.set j i x) T) T

/-- The function `matmul`: the dimension check, the zero matrix `C(A.r, B.c, 0.0)`, then the loops over
`i`, `k`, `j` in this order with `C(i, j) += aik * B(k, j)`. -/
def matmul (A B : Matrix α) : Except Err (Matrix α) :=
  if A.c ≠ B.r then .error .matmulDim
  else do
    let C ← Matrix.new A.r B.c 0
    forLoop A.r.toNat (fun i C =>
      forLoop A.c.toNat (fun k C => do
        let aik ← A.get i k
        forLoop B.c.toNat (fun j C => do
          let bkj ← B.get k j
          let cij ← C.get i j
          C.set i j (cij + aik * bkj)) C) C) C

/-- The function `addBiasCol`: `C = A`, then `C(i, j) += b[i]`. -/
def addBiasCol (A : Matrix α) (b : List α) : Except Err (Matrix α) :=
  if (b.length : Int) ≠ A.r then .error .biasSize
  else
    forLoop A.r.toNat (fun i C =>
      forLoop A.c.toNat (fun j C => do
        let bi ← vecGet b i
        let cij ← C.get i j
        C.set i j (cij + bi)) C) A

/-- The scalar expression of `bipolarSigmoid`: `2.0 / (1.0 + std::exp(-2.0 * x)) - 1.0`. -/
def sigmoidExpr (exp : α → α) (x : α) : α :=
  2 / (1 + exp (-2 * x)) - 1

/-- The function `bipolarSigmoid`: `Y(i, j) = 2.0 / (1.0 + std::exp(-2.0 * X(i, j))) - 1.0`. -/
def bipolarSigmoid (exp : α → α) (X : Matrix α) : Except Err (Matrix α) := do
  let Y ← Matrix.new X.r X.c 0
  forLoop X.r.toNat (fun i Y =>
    forLoop X.c.toNat (fun j Y => do
      let x ← X.get i j
      Y.set i j (sigmoidExpr exp x)) Y) Y

/-- The function `normalize_bipolar`: `denom = mx - mn`, the guard `std::abs(denom) < 1e-12`
returning `0.0`, else `-1.0 + 2.0 * (x - mn) / denom`. -/
def normalize_bipolar (x mn mx : α) : α :=
  let denom := mx - mn
  if |denom| < 1e-12 then 0
  else -1 + 2 * (x - mn) / denom

/-- The inverse rescale written inline in `main` of `stormtide_ann_csv.cpp`:
`(O_raw[i] + 1.0) / 2.0 * (max_O - min_O) + min_O`. -/
def denormalize (y mn mx : α) : α :=
  (y + 1) / 2 * (mx - mn) + mn

/-! ## File loading -/

/-- One read of an input file by the number parser of its format: `num x` is a read that returns
the number `x`, `bad` is a read that fails.

A text file is read by `fin >> x`, read after read on its characters (`streamRead`,
`lexStream`): the word `12abc` is a read that returns `12` followed by a read that fails on
`abc`, the words `x` and `2e` are reads that fail. In a CSV file every retained cell is one read
by `std::stod` (`classifyCell`): the cells `12abc` and `2e` are reads that return `12` and `2`,
the cell `x` is a read that fails. -/
inductive Tok (α : Type) where
  | num (x : α)
  | bad
  deriving Repr, DecidableEq

/-- The loop `while (fin >> x) nums.push_back(x);` of `readAllNumbers` on the reads of the file:
the value of every read is pushed until the first read that fails or the end of the file. On the
reads of a text this is the loop on its characters (`extractNums_lexStream`). -/
def extractNums : List (Tok α) → List α
  | .num x :: rest => x :: extractNums rest
  | _ => []

/-- The function `readAllNumbers`; `file = none` is a file that cannot be opened. -/
def readAllNumbers (path : String) (file : Option (List (Tok α))) : Except Err (List α) :=
  match file with
  | none => .error (.openFailed path)
  | some toks =>
    let nums := extractNums toks
    if nums.isEmpty then .error (.noData path) else .ok nums

/-- The function `readMatrixFixed`: `Matrix m(rows, cols); m.a = std::move(nums);` after the
size check. -/
def readMatrixFixed (path : String) (file : Option (List (Tok α))) (rows cols : Int) :
    Except Err (Matrix α) := do
  let nums ← readAllNumbers path file
  if (nums.length : Int) ≠ rows * cols then
    .error (.sizeMismatch path (rows * cols) nums.length)
  else do
    let m ← Matrix.new rows cols (0 : α)
    pure { m with a := nums }

/-- The function `readVectorFixed`. -/
def readVectorFixed (path : String) (file : Option (List (Tok α))) (n : Int) :
    Except Err (List α) := do
  let nums ← readAllNumbers path file
  if (nums.length : Int) ≠ n then .error (.sizeMismatch path n nums.length)
  else pure nums

/-- The call `std::stod(cell)` on the read of a trimmed, non-empty cell: the value converted from
the cell or from its leading part, or `std::invalid_argument` when nothing can be converted. -/
def stod : Tok α → Except Err α
  | .num x => .ok x
  | .bad => .error .stod

/-- The inner loop of `readCsvMatrix` on the cells of one line, each already trimmed
(`none` is a cell that is empty after trimming, which is skipped). -/
def parseRow : List (Option (Tok α)) → Except Err (List α)
  | [] => .ok []
  | none :: cells => parseRow cells
  | some t :: cells => do
    let x ← stod t
    let row ← parseRow cells
    pure (x :: row)

/-- The outer loop of `readCsvMatrix` on the lines of the file; an empty line has no cell, and a
line whose row is empty is not pushed. -/
def parseRows : List (List (Option (Tok α))) → Except Err (List (List α))
  | [] => .ok []
  | line :: lines => do
    let row ← parseRow line
    let rows ← parseRows lines
    pure (if row.isEmpty then rows else row :: rows)

/-- The function `readCsvMatrix`; `file = none` is a file that cannot be opened, otherwise the
file is the list of its lines, each the list of its comma-separated cells. -/
def readCsvMatrix (path : String) (file : Option (List (List (Option (Tok α))))) :
    Except Err (Matrix α) :=
  match file with
  | none => .error (.openFailed path)
  | some lines => do
    let rows ← parseRows lines
    if rows.isEmpty then .error (.noData path)
    else do
      let r : Int := rows.length
      let row0 ← vecGet rows 0
      let c : Int := row0.length
      let _ ← forLoop (r - 1).toNat (fun i _ => do
        let rowi ← vecGet rows ((i : Int) + 1)
        if (rowi.length : Int) ≠ c then .error (.colMismatch path) else pure ()) ()
      let M ← Matrix.new r c (0 : α)
      forLoop r.toNat (fun i M =>
        forLoop c.toNat (fun j M => do
          let rowi ← vecGet rows i
          let x ← vecGet rowi j
          M.set i j x) M) M

/-- The function `readCsvVector`. -/
def readCsvVector (path : String) (file : Option (List (List (Option (Tok α))))) :
    Except Err (List α) := do
  let m ← readCsvMatrix path file
  if m.c = 1 then do
    let v ← vecNew m.r (0 : α)
    forLoop m.r.toNat (fun i v => do
      let x ← m.get i 0
      vecSet v i x) v
  else if m.r = 1 then do
    let v ← vecNew m.c (0 : α)
    forLoop m.c.toNat (fun j v => do
      let x ← m.get 0 j
      vecSet v j x) v
  else .error (.vectorShape path)

/-! ## The two library parsers on characters

The programs read numbers with `operator>>` of the stream library (`readAllNumbers`) and with
`std::stod` (`readCsvMatrix`). Both are embedded here on the characters of the text, as the GNU
C++ library and C library perform them in the default "C" locale. Values are exact: the decimal
text `0.1` is the number `1/10`, and the range of `double` is not modelled. -/

/-- The test `std::isspace` of the "C" locale: space, `\t`, `\n`, `\v`, `\f`, `\r`. -/
def isSpace (c : Char) : Bool :=
  c.toNat = 32 || (9 ≤ c.toNat && c.toNat ≤ 13)

/-- The test for a decimal digit `0` to `9`. -/
def isDigit (c : Char) : Bool :=
  48 ≤ c.toNat && c.toNat ≤ 57

/-- The natural number written by a list of decimal digits. -/
def natOfDigits (ds : List Char) : Nat :=
  ds.foldl (fun n c => 10 * n + (c.toNat - 48)) 0

/-- The text after its leading white space. -/
def skipSpace : List Char → List Char
  | [] => []
  | c :: cs => if isSpace c then skipSpace cs else c :: cs

/-- The leading decimal digits of a text. -/
def takeDigits : List Char → List Char
  | [] => []
  | c :: cs => if isDigit c then c :: takeDigits cs else []

/-- The text after its leading decimal digits. -/
def dropDigits : List Char → List Char
  | [] => []
  | c :: cs => if isDigit c then dropDigits cs else c :: cs

/-- An optional sign: whether it is `-`, and the text after it. -/
def takeSign : List Char → Bool × List Char
  | [] => (false, [])
  | c :: cs => if c = '-' then (true, cs) else if c = '+' then (false, cs) else (false, c :: cs)

/-- The conversion of `strtod` on a text that starts a decimal number: an optional sign, digits
with at most one point and at least one digit, then an exponent `e` or `E` with an optional sign
only when at least one exponent digit follows. The result is the value of the longest such
leading part and the text after it, or `none` when nothing can be converted. -/
def strtodDec (cs : List Char) : Option (α × List Char) :=
  let s := takeSign cs
  let ip := takeDigits s.2
  let r1 := dropDigits s.2
  let fp := match r1 with
    | c :: t => if c = '.' then takeDigits t else []
    | [] => []
  let r2 := match r1 with
    | c :: t => if c = '.' && !(ip.isEmpty && (takeDigits t).isEmpty) then dropDigits t else r1
    | [] => r1
  if ip.isEmpty && fp.isEmpty then none
  else
    let m : α := (natOfDigits (ip ++ fp) : α) / 10 ^ fp.length
    let ex := match r2 with
      | c :: t => if c = 'e' || c = 'E' then takeSign t else (false, [])
      | [] => (false, [])
    let ed := takeDigits ex.2
    let v : α := if ex.1 then m / 10 ^ natOfDigits ed else m * 10 ^ natOfDigits ed
    let r3 := if ed.isEmpty then r2 else dropDigits ex.2
    some (if s.1 then -v else v, r3)

/-- The characters that one `fin >> x` takes from the stream for a `double`, and the text left
in the stream. A sign is taken at the start and right after the exponent letter (`sg`), a digit
always, a point when no point and no exponent letter was taken (`fd`, `fs`), an exponent letter
when a digit was taken and no exponent letter yet (`fm`, `fs`); the first other character stops
the read and stays in the stream. -/
def scanFloat : Bool → Bool → Bool → Bool → List Char → List Char × List Char
  | _, _, _, _, [] => ([], [])
  | sg, fm, fd, fs, c :: cs =>
    if sg && (c = '+' || c = '-') then
      let p := scanFloat false fm fd fs cs
      (c :: p.1, p.2)
    else if isDigit c then
      let p := scanFloat false true fd fs cs
      (c :: p.1, p.2)
    else if c = '.' && !fd && !fs then
      let p := scanFloat false fm true fs cs
      (c :: p.1, p.2)
    else if (c = 'e' || c = 'E') && !fs && fm then
      let p := scanFloat true fm fd true cs
      ('e' :: p.1, p.2)
    else ([], c :: cs)

/-- One `fin >> x`: white space is skipped, the characters of `scanFloat` are taken, and the
read succeeds with their value when `strtod` converts all of them; otherwise (also at the end of
the file) the read fails. The characters taken are signs, digits, a point and `e`, so `strtod`
converts them as a decimal number (`strtodDec`). A failed read has taken its characters all the
same: for `2e` the `e` is taken and the read fails, for `12abc` the read returns `12` and leaves
`abc`. -/
def streamRead (cs : List Char) : Option (α × List Char) :=
  let p := scanFloat true false false false (skipSpace cs)
  match (strtodDec p.1 : Option (α × List Char)) with
  | some (v, []) => some (v, p.2)
  | _ => none

/-- The reads that `readAllNumbers` performs on a text, one after the other: `num x` for a read
that returns `x`, and a last `bad` for the read that fails before the end of the text, after
which the loop ends. A loop that ends at the end of the text has no `bad` read. Fuel at least
the length of the text lists all the reads (`lexStream_fuel`). -/
def lexStream : Nat → List Char → List (Tok α)
  | 0, _ => []
  | fuel + 1, cs =>
    match (streamRead cs : Option (α × List Char)) with
    | some (v, rest) => .num v :: lexStream fuel rest
    | none => if (skipSpace cs).isEmpty then [] else [.bad]

/-- The two loops of both `main` functions that fill the bound vectors and normalise the inputs:
`minI[j] = cfgI(0, j); maxI[j] = cfgI(1, j);` then
`Xn(i, j) = normalize_bipolar(inputs(i, j), minI[j], maxI[j])`. -/
def normalizeInputs (inputs cfgI : Matrix α) (N F : Int) : Except Err (Matrix α) := do
  let minI ← vecNew F (0 : α)
  let maxI ← vecNew F (0 : α)
  let (minI, maxI) ← forLoop F.toNat (fun j (mm : List α × List α) => do
    let lo ← cfgI.get 0 j
    let mn ← vecSet mm.1 j lo
    let hi ← cfgI.get 1 j
    let mx ← vecSet mm.2 j hi
    pure (mn, mx)) (minI, maxI)
  let Xn ← Matrix.new N F (0 : α)
  forLoop N.toNat (fun i Xn =>
    forLoop F.toNat (fun j Xn => do
      let x ← inputs.get i j
      let mn ← vecGet minI j
      let mx ← vecGet maxI j
      Xn.set i j (normalize_bipolar x mn mx)) Xn) Xn

/-- The body of `main` in `stormtide_ann_csv.cpp` from the shape checks to the output matrix
`Omat` (the statements after the six loads, up to `Omat = addBiasCol(Omat, OB)`). -/
def forwardCsv (exp : α → α) (inputs cfgI HW : Matrix α) (HB : List α) (OW : Matrix α)
    (OB : List α) : Except Err (Matrix α) :=
  let N := inputs.r
  let F := inputs.c
  if cfgI.r ≠ 2 ∨ cfgI.c ≠ F then .error (.shape "Config_I must be 2 x F")
  else if HW.c ≠ F then .error (.shape "CS_HW must be HN x F")
  else
    let HN := HW.r
    if (HB.length : Int) ≠ HN then .error (.shape "CS_HB must be HN x 1")
    else if OW.c ≠ HN then .error (.shape "CS_OW must be OUT x HN")
    else
      let OUT := OW.r
      if (OB.length : Int) ≠ OUT then .error (.shape "CS_OB must be OUT x 1")
      else do
        let Xn ← normalizeInputs inputs cfgI N F
        let Xnt ← transpose Xn
        let W ← matmul HW Xnt
        let H ← addBiasCol W HB
        let HE ← bipolarSigmoid exp H
        let Omat ← matmul OW HE
        addBiasCol Omat OB

/-- The six files read by `main` of `stormtide_ann_csv.cpp`. -/
structure CsvFiles (α : Type) where
  inputs : Option (List (List (Option (Tok α))))
  configI : Option (List (List (Option (Tok α))))
  hw : Option (List (List (Option (Tok α))))
  hb : Option (List (List (Option (Tok α))))
  ow : Option (List (List (Option (Tok α))))
  ob : Option (List (List (Option (Tok α))))

/-- The function `main` of `stormtide_ann_csv.cpp` up to the output matrix `Omat`: the six loads,
then `forwardCsv`. -/
def mainCsvOmat (exp : α → α) (fs : CsvFiles α) : Except Err (Matrix α) := do
  let inputs ← readCsvMatrix "ANNSFM_inputs.csv" fs.inputs
  let cfgI ← readCsvMatrix "ANNSFM_Config_I.csv" fs.configI
  let HW ← readCsvMatrix "ANNSFM_CS_HW.csv" fs.hw
  let HB ← readCsvVector "ANNSFM_CS_HB.csv" fs.hb
  let OW ← readCsvMatrix "ANNSFM_CS_OW.csv" fs.ow
  let OB ← readCsvVector "ANNSFM_CS_OB.csv" fs.ob
  forwardCsv exp inputs cfgI HW HB OW OB

/-- The six files read by `main` of `stormtide_ann_inference.cpp`. -/
structure TxtFiles (α : Type) where
  inputs : Option (List (Tok α))
  configI : Option (List (Tok α))
  hw : Option (List (Tok α))
  hb : Option (List (Tok α))
  ow : Option (List (Tok α))
  ob : Option (List (Tok α))

/-- The resolution of the output layer in `main` of `stormtide_ann_inference.cpp`:
`owNums = readAllNumbers(OW_TXT)`, the check `owNums.size() % HN != 0`,
`OUT = owNums.size() / HN`, `Matrix OW(OUT, HN); OW.a = std::move(owNums);` and
`OB = readVectorFixed(OB_TXT, OUT)`. The result is `(OUT, OW, OB)`; `%` and `/` of C++ truncate
towards zero (`Int.tmod`, `Int.tdiv`). -/
def resolveOutput (HN : Int) (owFile obFile : Option (List (Tok α))) :
    Except Err (Int × Matrix α × List α) := do
  let owNums ← readAllNumbers "ANNSFM_CS_OW.txt" owFile
  if Int.tmod (owNums.length : Int) HN ≠ 0 then
    .error (.shape "CS_OW size must be multiple of hidden size(12).")
  else do
    let OUT : Int := Int.tdiv (owNums.length : Int) HN
    let OW0 ← Matrix.new OUT HN (0 : α)
    let OW : Matrix α := { OW0 with a := owNums }
    let OB ← readVectorFixed "ANNSFM_CS_OB.txt" obFile OUT
    pure (OUT, OW, OB)

/-- The function `main` of `stormtide_ann_inference.cpp` up to the output matrix `Omat`, with the
constants `N`, `F`, `HN` of the source as parameters (the transposition `Xnt(j, i) = Xn(i, j)` is
the inline double loop of the source). -/
def forwardFixed (exp : α → α) (N F HN : Int) (fs : TxtFiles α) : Except Err (Matrix α) := do
  let inputs ← readMatrixFixed "ANNSFM_inputs.txt" fs.inputs N F
  let cfgI ← readMatrixFixed "ANNSFM_Config_I.txt" fs.configI 2 F
  let Xn ← normalizeInputs inputs cfgI N F
  let Xnt ← Matrix.new F N (0 : α)
  let Xnt ← forLoop N.toNat (fun i Xnt =>
    forLoop F.toNat (fun j Xnt => do
      let x ← Xn.get i j
      Xnt.set j i x) Xnt) Xnt
  let HW ← readMatrixFixed "ANNSFM_CS_HW.txt" fs.hw HN F
  let HB ← readVectorFixed "ANNSFM_CS_HB.txt" fs.hb HN
  let W ← matmul HW Xnt
  let H ← addBiasCol W HB
  let HE ← bipolarSigmoid exp H
  let (_, OW, OB) ← resolveOutput HN fs.ow fs.ob
  let Omat ← matmul OW HE
  addBiasCol Omat OB

/-- The function `main` of `stormtide_ann_inference.cpp` up to `Omat`, at the constants of the
source: `N = 708`, `F = 8`, `HN = 12`. -/
def mainFixedOmat (exp : α → α) (fs : TxtFiles α) : Except Err (Matrix α) :=
  forwardFixed exp 708 8 12 fs

end ops

/-! ## Export of the results -/

/-- The rows of numbers written to the result file, one constructor per file; the formatting of
the numbers and the header line are outside the model. -/
inductive Export (α : Type) where
  /-- File `prediction.csv` of `saveCsvVector`: for each sample, `pred`. -/
  | pred (rows : List α)
  /-- File `prediction_matrix.csv`: for each output channel, its value for each sample. -/
  | predMatrix (rows : List (List α))
  /-- File `prediction_validate.csv` of `writePredictionCsv`: for each sample, `O_raw`, `new_O`
  and `Y_cm`. -/
  | validate (rows : List (α × α × α))
  deriving Repr, DecidableEq

/-- A writing loop `for (i = 0; i < n; ++i) fout << item(i)`: the items written, in order. -/
def collect {β : Type} (n : Nat) (item : Nat → Except Err β) : Except Err (List β) :=
  forLoop n (fun i out => do
    let x ← item i
    pure (out ++ [x])) []

/-- The function `saveCsvVector` of `stormtide_ann_inference.cpp`; `canWrite = false` is an
output file that cannot be opened. -/
def saveCsvVector (path : String) (canWrite : Bool) (y : List α) : Except Err (Export α) :=
  if canWrite then do
    let rows ← collect y.length (fun i => vecGet y i)
    pure (.pred rows)
  else .error (.writeFailed path)

/-- The function `writePredictionCsv` of `stormtide_ann_csv.cpp`: one row per index of `rawO`. -/
def writePredictionCsv (path : String) (canWrite : Bool) (rawO newO Ycm : List α) :
    Except Err (Export α) :=
  if canWrite then do
    let rows ← collect rawO.length (fun i => do
      let o ← vecGet rawO i
      let n ← vecGet newO i
      let y ← vecGet Ycm i
      pure (o, n, y))
    pure (.validate rows)
  else .error (.writeFailed path)

section post
variable [LinearOrderedField α]

/-- The value `*std::max_element(v.begin(), v.end())`: the scan keeps the first largest element
(`if (*largest < *first) largest = first`); on an empty vector the iterator is `end()` and its
dereference is undefined behaviour. -/
def maxElement : List α → Except Err α
  | [] => .error .outOfRange
  | x :: xs => .ok (xs.foldl (fun largest y => if largest < y then y else largest) x)

/-- The value `*std::min_element(v.begin(), v.end())`: the scan keeps the first smallest element
(`if (*first < *smallest) smallest = first`). -/
def minElement : List α → Except Err α
  | [] => .error .outOfRange
  | x :: xs => .ok (xs.foldl (fun smallest y => if y < smallest then y else smallest) x)

/-- The rescale of `main` in `stormtide_ann_csv.cpp`: `max_O`, `min_O`, then for each sample
`new_O[i] = normalize_bipolar(O_raw[i], min_O, max_O)` and
`Y_cm[i] = (((O_raw[i] + 1.0) / 2.0 * (max_O - min_O) + min_O) + 0.7) * 100.0`.
The result is `(new_O, Y_cm)`. -/
def rescaleCsv (N : Int) (O_raw : List α) : Except Err (List α × List α) := do
  let max_O ← maxElement O_raw
  let min_O ← minElement O_raw
  let new_O ← vecNew N (0 : α)
  let Y_cm ← vecNew N (0 : α)
  forLoop N.toNat (fun i (p : List α × List α) => do
    let o ← vecGet O_raw i
    let new_O ← vecSet p.1 i (normalize_bipolar o min_O max_O)
    let o ← vecGet O_raw i
    let Y_cm ← vecSet p.2 i ((((o + 1) / 2 * (max_O - min_O) + min_O) + 0.7) * 100)
    pure (new_O, Y_cm)) (new_O, Y_cm)

/-- The extraction of the first output row in both `main` functions:
`vector<double> O_raw(N); for (int i = 0; i < N; ++i) O_raw[i] = Omat(0, i);`
(named `y` in `stormtide_ann_inference.cpp`). -/
def firstRow (N : Int) (Omat : Matrix α) : Except Err (List α) := do
  let O_raw ← vecNew N (0 : α)
  forLoop N.toNat (fun i O_raw => do
    let x ← Omat.get 0 i
    vecSet O_raw i x) O_raw

/-- The end of `main` in `stormtide_ann_csv.cpp`, after `Omat`: `O_raw[i] = Omat(0, i)`, the
rescale and `writePredictionCsv`. There is no test on `OUT`. -/
def exportCsv (canWrite : Bool) (N : Int) (Omat : Matrix α) : Except Err (Export α) := do
  let O_raw ← firstRow N Omat
  let (new_O, Y_cm) ← rescaleCsv N O_raw
  writePredictionCsv "prediction_validate.csv" canWrite O_raw new_O Y_cm

/-- The function `main` of `stormtide_ann_csv.cpp`: the six loads, `forwardCsv`, then the export
with `N = inputs.r`. -/
def mainCsv (exp : α → α) (fs : CsvFiles α) (canWrite : Bool) : Except Err (Export α) := do
  let inputs ← readCsvMatrix "ANNSFM_inputs.csv" fs.inputs
  let cfgI ← readCsvMatrix "ANNSFM_Config_I.csv" fs.configI
  let HW ← readCsvMatrix "ANNSFM_CS_HW.csv" fs.hw
  let HB ← readCsvVector "ANNSFM_CS_HB.csv" fs.hb
  let OW ← readCsvMatrix "ANNSFM_CS_OW.csv" fs.ow
  let OB ← readCsvVector "ANNSFM_CS_OB.csv" fs.ob
  let Omat ← forwardCsv exp inputs cfgI HW HB OW OB
  exportCsv canWrite inputs.r Omat

/-- The end of `main` in `stormtide_ann_inference.cpp`, after `Omat`: `if (OUT == 1)` the vector
`y[i] = Omat(0, i)` goes to `saveCsvVector`, else the lines `Omat(o, i)` go to
`prediction_matrix.csv`. -/
def exportFixed (canWrite : Bool) (N OUT : Int) (Omat : Matrix α) : Except Err (Export α) :=
  if OUT = 1 then do
    let y ← firstRow N Omat
    saveCsvVector "prediction.csv" canWrite y
  else if canWrite then do
    let rows ← collect OUT.toNat (fun o => collect N.toNat (fun i => Omat.get o i))
    pure (.predMatrix rows)
  else .error (.writeFailed "prediction_matrix.csv")

/-- The function `main` of `stormtide_ann_inference.cpp`, whole, with the constants `N`, `F`,
`HN` of the source as parameters: the statements of `forwardFixed`, keeping `OUT`, then
`exportFixed`. -/
def mainFixed (exp : α → α) (N F HN : Int) (fs : TxtFiles α) (canWrite : Bool) :
    Except Err (Export α) := do
  let inputs ← readMatrixFixed "ANNSFM_inputs.txt" fs.inputs N F
  let cfgI ← readMatrixFixed "ANNSFM_Config_I.txt" fs.configI 2 F
  let Xn ← normalizeInputs inputs cfgI N F
  let Xnt ← Matrix.new F N (0 : α)
  let Xnt ← forLoop N.toNat (fun i Xnt =>
    forLoop F.toNat (fun j Xnt => do
      let x ← Xn.get i j
      Xnt.set j i x) Xnt) Xnt
  let HW ← readMatrixFixed "ANNSFM_CS_HW.txt" fs.hw HN F
  let HB ← readVectorFixed "ANNSFM_CS_HB.txt" fs.hb HN
  let W ← matmul HW Xnt
  let H ← addBiasCol W HB
  let HE ← bipolarSigmoid exp H
  let (OUT, OW, OB) ← resolveOutput HN fs.ow fs.ob
  let Omat ← matmul OW HE
  let Omat ← addBiasCol Omat OB
  exportFixed canWrite N OUT Omat

/-- The struct `NeuralNetwork { W1; W2; }`: `W1` is hidden x input, `W2` is output x hidden. -/
structure NeuralNetwork (α : Type) where
  W1 : List (List α)
  W2 : List (List α)

/-- The function `sigmoid`: `1.0 / (1.0 + std::exp(-x))`. -/
def sigmoid (exp : α → α) (x : α) : α :=
  1 / (1 + exp (-x))

/-- The inner loop of a layer of `forward`: `h[i] += x[j] * W[i][j]` for `j < W[i].size()`. -/
def accumulateRow (row x : List α) (i : Nat) (h : List α) : Except Err (List α) :=
  forLoop row.length (fun j h => do
    let hi ← vecGet h i
    let xj ← vecGet x j
    let wij ← vecGet row j
    vecSet h i (hi + xj * wij)) h

/-- One layer of `forward` (the hidden layer and the output layer are the same loop): the vector
`h(W.size(), 0.0)`, then for each `i` the accumulation and `h[i] = sigmoid(h[i])`. -/
def denseLayer (exp : α → α) (W : List (List α)) (x : List α) : Except Err (List α) :=
  forLoop W.length (fun i h => do
    let row ← vecGet W i
    let h ← accumulateRow row x i h
    let hi ← vecGet h i
    vecSet h i (sigmoid exp hi)) (List.replicate W.length 0)

/-- The function `forward`: the hidden layer on the input, then the output layer on the hidden
vector. -/
def forward (exp : α → α) (nn : NeuralNetwork α) (x : List α) : Except Err (List α) := do
  let h ← denseLayer exp nn.W1 x
  denseLayer exp nn.W2 h

/-- The demo weights of `main` in `stormtide_ann.cpp`. -/
def demoNetwork : NeuralNetwork α :=
  { W1 := [[0.1, 0.2, 0.3], [0.4, 0.5, 0.6], [0.7, 0.8, 0.9]]
    W2 := [[0.1, 0.2, 0.3], [0.4, 0.5, 0.6], [0.7, 0.8, 0.9]] }

/-- The demo input of `main` in `stormtide_ann.cpp`. -/
def demoInput : List α := [1, 2, 3]

end post

/-! ## Specification vocabulary -/

section specdefs

/-- `Rep R C M g`: the matrix `M` has `R` rows and `C` columns, its vector has `R * C` elements,
and the element stored for `(i, j)` is `g i j`. -/
def Rep (R C : Nat) (M : Matrix α) (g : Nat → Nat → α) : Prop :=
  M.r = (R : Int) ∧ M.c = (C : Int) ∧ M.a.length = R * C ∧
    ∀ i j, i < R → j < C → M.a[i * C + j]? = some (g i j)

/-- The matrix has `R` rows and `C` columns and its vector has `R * C` elements. -/
def Shaped (R C : Int) (M : Matrix α) : Prop :=
  M.r = R ∧ M.c = C ∧ (M.a.length : Int) = R * C

/-- The element stored for `(i, j)`: `a[i * c + j]`, read as `0` outside the vector. -/
def Matrix.entry [Zero α] (M : Matrix α) (i j : Nat) : α :=
  M.a.getD (i * M.c.toNat + j) 0

/-- The file opens and the extraction loop of `readAllNumbers` reads the non-empty list `nums`
from it. -/
def Parses (file : Option (List (Tok α))) (nums : List α) : Prop :=
  ∃ toks, file = some toks ∧ extractNums toks = nums ∧ nums ≠ []

/-- Equality of results is decidable, so that a concrete run can be evaluated. -/
instance exceptDecEq {ε β : Type} [DecidableEq ε] [DecidableEq β] : DecidableEq (Except ε β)
  | .ok a, .ok b =>
    if h : a = b then isTrue (by rw [h]) else isFalse (by intro h'; cases h'; exact h rfl)
  | .error a, .error b =>
    if h : a = b then isTrue (by rw [h]) else isFalse (by intro h'; cases h'; exact h rfl)
  | .ok _, .error _ => isFalse (by intro h; cases h)
  | .error _, .ok _ => isFalse (by intro h; cases h)

end specdefs

/-! ## Vectors, element access and loops -/

theorem vecGet_natCast (v : List α) (n : Nat) (x : α) (h : v[n]? = some x) :
    vecGet v (n : Int) = .ok x := by
  simp [vecGet, h]

theorem vecSet_natCast (v : List α) (n : Nat) (x : α) (h : n < v.length) :
    vecSet v (n : Int) x = .ok (v.set n x) := by
  simp [vecSet, h]

theorem vecSet_length {v w : List α} {i : Int} {x : α} (h : vecSet v i x = .ok w) :
    w.length = v.length := by
  unfold vecSet at h
  split at h
  · cases h; simp
  · cases h

theorem vecNew_natCast (n : Nat) (x : α) : vecNew (n : Int) x = .ok (List.replicate n x) := by
  simp [vecNew]

theorem vecNew_length {n : Int} {x : α} {v : List α} (h : vecNew n x = .ok v) :
    (v.length : Int) = n := by
  unfold vecNew at h
  split at h
  · cases h
  · cases h
    simp only [List.length_replicate]
    omega

theorem index_lt {R C i j : Nat} (hi : i < R) (hj : j < C) : i * C + j < R * C := by
  calc i * C + j < i * C + C := by omega
    _ = (i + 1) * C := by ring
    _ ≤ R * C := Nat.mul_le_mul_right C hi

theorem index_inj {C i j i' j' : Nat} (hj : j < C) (hj' : j' < C)
    (h : i * C + j = i' * C + j') : i = i' ∧ j = j' := by
  have h1 : (i * C + j) / C = (i' * C + j') / C := by rw [h]
  have h2 : (i * C + j) % C = (i' * C + j') % C := by rw [h]
  have hC : 0 < C := by omega
  rw [Nat.mul_comm i, Nat.mul_comm i', Nat.mul_add_div hC, Nat.mul_add_div hC,
    Nat.div_eq_of_lt hj, Nat.div_eq_of_lt hj'] at h1
  rw [Nat.mul_comm i, Nat.mul_comm i', Nat.mul_add_mod, Nat.mul_add_mod,
    Nat.mod_eq_of_lt hj, Nat.mod_eq_of_lt hj'] at h2
  omega

theorem Rep.get_ok {R C : Nat} {M : Matrix α} {g : Nat → Nat → α} (h : Rep R C M g)
    {i j : Nat} (hi : i < R) (hj : j < C) : M.get (i : Int) (j : Int) = .ok (g i j) := by
  obtain ⟨_, hc, _, hg⟩ := h
  have e : (i : Int) * M.c + (j : Int) = ((i * C + j : Nat) : Int) := by rw [hc]; push_cast; ring
  unfold Matrix.get
  rw [e]
  exact vecGet_natCast _ _ _ (hg i j hi hj)

theorem Rep.get_row0 {R C : Nat} {M : Matrix α} {g : Nat → Nat → α} (h : Rep R C M g)
    {j : Nat} (hR : 0 < R) (hj : j < C) : M.get 0 (j : Int) = .ok (g 0 j) := by
  have := h.get_ok hR hj
  simpa using this

theorem Rep.set_ok {R C : Nat} {M : Matrix α} {g : Nat → Nat → α} (h : Rep R C M g)
    {i j : Nat} (hi : i < R) (hj : j < C) (x : α) :
    ∃ M', M.set (i : Int) (j : Int) x = .ok M' ∧
      Rep R C M' (fun i' j' => if i' = i ∧ j' = j then x else g i' j') := by
  obtain ⟨hr, hc, hl, hg⟩ := h
  have e : (i : Int) * M.c + (j : Int) = ((i * C + j : Nat) : Int) := by rw [hc]; push_cast; ring
  have hlt : i * C + j < M.a.length := by rw [hl]; exact index_lt hi hj
  refine ⟨{ M with a := M.a.set (i * C + j) x }, ?_, hr, hc, ?_, ?_⟩
  · unfold Matrix.set
    rw [e, vecSet_natCast _ _ _ hlt]
    rfl
  · simp [hl]
  · intro i' j' hi' hj'
    simp only [List.getElem?_set]
    by_cases hij : i' = i ∧ j' = j
    · obtain ⟨rfl, rfl⟩ := hij
      simp [hlt]
    · have hne : i * C + j ≠ i' * C + j' := by
        intro heq
        obtain ⟨h1, h2⟩ := index_inj hj hj' heq
        exact hij ⟨h1.symm, h2.symm⟩
      simp [hne, hij, hg i' j' hi' hj']

theorem Rep.new_ok (R C : Nat) (x : α) :
    ∃ M, Matrix.new (R : Int) (C : Int) x = .ok M ∧ Rep R C M (fun _ _ => x) := by
  refine ⟨⟨R, C, List.replicate (R * C) x⟩, ?_, rfl, rfl, by simp, ?_⟩
  · unfold Matrix.new
    have e : (R : Int) * (C : Int) = ((R * C : Nat) : Int) := by push_cast; ring
    rw [e, vecNew_natCast]
    rfl
  · intro i j hi hj
    simp [List.getElem?_replicate, index_lt hi hj]

theorem Rep.congr {R C : Nat} {M : Matrix α} {g g' : Nat → Nat → α} (h : Rep R C M g)
    (hg : ∀ i j, i < R → j < C → g i j = g' i j) : Rep R C M g' := by
  obtain ⟨hr, hc, hl, he⟩ := h
  exact ⟨hr, hc, hl, fun i j hi hj => by rw [he i j hi hj, hg i j hi hj]⟩

theorem forLoop_succ {σ : Type} (n : Nat) (body : Nat → σ → Except Err σ) (s : σ) :
    forLoop (n + 1) body s = (forLoop n body s >>= body n) := rfl

/-- Loop rule: an invariant `P i s` ("state before iteration `i`") that every iteration
re-establishes without failing holds after the loop, which does not fail. -/
theorem forLoop_inv {σ : Type} (P : Nat → σ → Prop) (n : Nat) (body : Nat → σ → Except Err σ)
    (s : σ) (h0 : P 0 s)
    (hstep : ∀ i s, i < n → P i s → ∃ s', body i s = .ok s' ∧ P (i + 1) s') :
    ∃ s', forLoop n body s = .ok s' ∧ P n s' := by
  induction n with
  | zero => exact ⟨s, rfl, h0⟩
  | succ k ih =>
    obtain ⟨s1, h1, hP1⟩ := ih (fun i s hi hP => hstep i s (by omega) hP)
    obtain ⟨s2, h2, hP2⟩ := hstep k s1 (by omega) hP1
    exact ⟨s2, by rw [forLoop_succ, h1]; exact h2, hP2⟩

/-- Loop rule for partial correctness: a property that every successful iteration preserves
holds after a successful loop. -/
theorem forLoop_preserves {σ : Type} (P : σ → Prop) (n : Nat) (body : Nat → σ → Except Err σ)
    (hstep : ∀ i s s', P s → body i s = .ok s' → P s') :
    ∀ s s', P s → forLoop n body s = .ok s' → P s' := by
  induction n with
  | zero => intro s s' hP h; cases h; exact hP
  | succ k ih =>
    intro s s' hP h
    rw [forLoop_succ] at h
    cases h1 : forLoop k body s with
    | error e => rw [h1] at h; cases h
    | ok s1 =>
      rw [h1] at h
      exact hstep k s1 s' (ih s s1 hP h1) h

theorem bind_eq_ok {β γ : Type} {x : Except Err β} {f : β → Except Err γ} {c : γ}
    (h : (x >>= f) = .ok c) : ∃ b, x = .ok b ∧ f b = .ok c := by
  cases x with
  | error e => cases h
  | ok b => exact ⟨b, rfl, h⟩

/-- Rule for a double loop in which iteration `(i, j)` gives the cell `(i, j)` of a view `v` of
the state its final value `f i j`, leaving the other cells as they are. -/
theorem forLoop2_fill {σ β : Type} (Rel : σ → (Nat → Nat → β) → Prop) (R C : Nat)
    (hcongr : ∀ s v v', Rel s v → (∀ i j, i < R → j < C → v i j = v' i j) → Rel s v')
    (body : Nat → Nat → σ → Except Err σ) (v0 f : Nat → Nat → β)
    (hbody : ∀ i j s v, i < R → j < C → Rel s v → v i j = v0 i j →
      ∃ s', body i j s = .ok s' ∧ Rel s' (fun i' j' => if i' = i ∧ j' = j then f i j else v i' j'))
    (s0 : σ) (h0 : Rel s0 v0) :
    ∃ s, forLoop R (fun i s => forLoop C (fun j s => body i j s) s) s0 = .ok s ∧ Rel s f := by
  obtain ⟨s, hs, hP⟩ := forLoop_inv
    (fun i s => Rel s (fun i' j' => if i' < i then f i' j' else v0 i' j')) R
    (fun i s => forLoop C (fun j s => body i j s) s) s0
    (hcongr _ _ _ h0 (fun i j _ _ => by simp))
    (by
      intro i s hi hP
      obtain ⟨s', hs', hQ⟩ := forLoop_inv
        (fun j s => Rel s (fun i' j' =>
          if i' < i ∨ (i' = i ∧ j' < j) then f i' j' else v0 i' j')) C
        (fun j s => body i j s) s
        (hcongr _ _ _ hP (fun i' j' _ _ => by simp))
        (by
          intro j s hj hQ
          obtain ⟨s', hs', hR⟩ := hbody i j s _ hi hj hQ (by simp)
          refine ⟨s', hs', hcongr _ _ _ hR ?_⟩
          intro i' j' _ _
          by_cases h1 : i' = i ∧ j' = j
          · obtain ⟨rfl, rfl⟩ := h1
            simp
          · by_cases h2 : i' < i
            · simp [h1, h2]
            · by_cases h3 : i' = i
              · subst h3
                have : j' ≠ j := fun h => h1 ⟨rfl, h⟩
                have e : (j' < j + 1) = (j' < j) := by
                  apply propext; omega
                simp [this, e]
              · simp [h1, h2, h3])
      refine ⟨s', hs', hcongr _ _ _ hQ ?_⟩
      intro i' j' _ hj'
      by_cases h2 : i' < i
      · have : i' < i + 1 := by omega
        simp [h2, this]
      · by_cases h3 : i' = i
        · subst h3
          simp [hj']
        · have : ¬ i' < i + 1 := by omega
          simp [h2, h3, this])
  exact ⟨s, hs, hcongr _ _ _ hP (fun i j hi _ => by simp [hi])⟩

section opsproofs
variable [LinearOrderedField α]

theorem bipolarSigmoid_rep (exp : α → α) {R C : Nat} {X : Matrix α} {g : Nat → Nat → α}
    (h : Rep R C X g) :
    ∃ Y, bipolarSigmoid exp X = .ok Y ∧ Rep R C Y (fun i j => sigmoidExpr exp (g i j)) := by
  obtain ⟨Y0, hY0, hrep0⟩ := Rep.new_ok R C (0 : α)
  have hr := h.1
  have hc := h.2.1
  obtain ⟨Y, hY, hrep⟩ := forLoop2_fill (fun (M : Matrix α) v => Rep R C M v) R C
    (fun s v v' hv hvv => hv.congr hvv)
    (fun i j Y => do
      let x ← X.get i j
      Y.set i j (sigmoidExpr exp x))
    (fun _ _ => 0) (fun i j => sigmoidExpr exp (g i j))
    (by
      intro i j M v hi hj hv _
      obtain ⟨M', hM', hrep'⟩ := hv.set_ok hi hj (sigmoidExpr exp (g i j))
      refine ⟨M', ?_, hrep'⟩
      simp only [h.get_ok hi hj]
      exact hM')
    Y0 hrep0
  refine ⟨Y, ?_, hrep⟩
  unfold bipolarSigmoid
  rw [hr, hc, hY0]
  simpa using hY

end opsproofs

section matmulproofs
variable [LinearOrderedField α]

end matmulproofs

section normproofs
variable [LinearOrderedField α]

end normproofs

/-! ## Shapes and loaders -/

theorem Rep.of_shape [Zero α] {R C : Nat} {M : Matrix α} (hr : M.r = (R : Int))
    (hc : M.c = (C : Int)) (hl : M.a.length = R * C) : Rep R C M M.entry := by
  refine ⟨hr, hc, hl, ?_⟩
  intro i j hi hj
  have hlt : i * C + j < M.a.length := by rw [hl]; exact index_lt hi hj
  simp [Matrix.entry, hc, List.getD_eq_getElem?_getD, List.getElem?_eq_getElem hlt]

theorem Rep.of_list [Zero α] (R C : Nat) (l : List α) (hl : l.length = R * C) :
    Rep R C (⟨R, C, l⟩ : Matrix α) (fun i j => l.getD (i * C + j) 0) := by
  refine ⟨rfl, rfl, hl, ?_⟩
  intro i j hi hj
  have hlt : i * C + j < l.length := by rw [hl]; exact index_lt hi hj
  simp [List.getD_eq_getElem?_getD, List.getElem?_eq_getElem hlt]

theorem readAllNumbers_parses {file : Option (List (Tok α))} {nums : List α}
    (h : Parses file nums) (path : String) : readAllNumbers path file = .ok nums := by
  obtain ⟨toks, rfl, rfl, hne⟩ := h
  simp [readAllNumbers, hne]

theorem readVectorFixed_parses {file : Option (List (Tok α))} {nums : List α}
    (h : Parses file nums) (path : String) (n : Nat) (hl : nums.length = n) :
    readVectorFixed path file (n : Int) = .ok nums := by
  unfold readVectorFixed
  rw [readAllNumbers_parses h]
  simp [bind, Except.bind, hl, pure, Except.pure]

section loaderproofs
variable [LinearOrderedField α]

end loaderproofs

/-! ## The forward pass, end to end -/

section forwardproofs
variable [LinearOrderedField α]

end forwardproofs

/-! ## Which errors can occur -/

theorem bind_eq_error {β γ : Type} {x : Except Err β} {f : β → Except Err γ} {e : Err}
    (h : (x >>= f) = .error e) : x = .error e ∨ ∃ b, x = .ok b ∧ f b = .error e := by
  cases x with
  | error e' => left; cases h; rfl
  | ok b => right; exact ⟨b, rfl, h⟩

theorem vecGet_error {v : List α} {i : Int} {e : Err} (h : vecGet v i = .error e) :
    e = .outOfRange := by
  unfold vecGet at h
  split at h
  · split at h
    · cases h
    · cases h; rfl
  · cases h; rfl

theorem vecSet_error {v : List α} {i : Int} {x : α} {e : Err} (h : vecSet v i x = .error e) :
    e = .outOfRange := by
  unfold vecSet at h
  split at h
  · cases h
  · cases h; rfl

theorem vecNew_error {n : Int} {x : α} {e : Err} (h : vecNew n x = .error e) :
    e = .lengthError := by
  unfold vecNew at h
  split at h
  · cases h; rfl
  · cases h

theorem Matrix.get_error {M : Matrix α} {i j : Int} {e : Err} (h : M.get i j = .error e) :
    e = .outOfRange :=
  vecGet_error h

theorem Matrix.set_error {M : Matrix α} {i j : Int} {x : α} {e : Err}
    (h : M.set i j x = .error e) : e = .outOfRange := by
  unfold Matrix.set at h
  rcases bind_eq_error h with h1 | ⟨b, _, h2⟩
  · exact vecSet_error h1
  · cases h2

theorem Matrix.new_error {rows cols : Int} {x : α} {e : Err}
    (h : Matrix.new rows cols x = .error e) : e = .lengthError := by
  unfold Matrix.new at h
  rcases bind_eq_error h with h1 | ⟨b, _, h2⟩
  · exact vecNew_error h1
  · cases h2

/-- Loop rule for failures: a loop fails only with an error of one of its iterations. -/
theorem forLoop_error {σ : Type} (E : Err → Prop) (n : Nat) (body : Nat → σ → Except Err σ)
    (hbody : ∀ i s e, body i s = .error e → E e) :
    ∀ s e, forLoop n body s = .error e → E e := by
  induction n with
  | zero => intro s e h; cases h
  | succ k ih =>
    intro s e h
    rw [forLoop_succ] at h
    rcases bind_eq_error h with h1 | ⟨s1, _, h2⟩
    · exact ih s e h1
    · exact hbody k s1 e h2

section errorproofs
variable [LinearOrderedField α]

theorem matmul_error {A B : Matrix α} {e : Err} (hdim : A.c = B.r)
    (h : matmul A B = .error e) : e = .lengthError ∨ e = .outOfRange := by
  unfold matmul at h
  simp only [hdim, ne_eq, not_true_eq_false, ↓reduceIte] at h
  rcases bind_eq_error h with h1 | ⟨C0, _, h2⟩
  · left; exact Matrix.new_error h1
  · right
    refine forLoop_error (fun e => e = .outOfRange) _ _ ?_ C0 e h2
    intro i C e hi
    refine forLoop_error (fun e => e = .outOfRange) _ _ ?_ C e hi
    intro k C e hk
    rcases bind_eq_error hk with h3 | ⟨aik, _, h4⟩
    · exact Matrix.get_error h3
    · refine forLoop_error (fun e => e = .outOfRange) _ _ ?_ C e h4
      intro j C e hj
      rcases bind_eq_error hj with h5 | ⟨bkj, _, h6⟩
      · exact Matrix.get_error h5
      · rcases bind_eq_error h6 with h7 | ⟨cij, _, h8⟩
        · exact Matrix.get_error h7
        · exact Matrix.set_error h8

end errorproofs

/-! ## Shapes of the results of successful calls -/

theorem Matrix.set_shape {M M' : Matrix α} {i j : Int} {x : α} (h : M.set i j x = .ok M') :
    M'.r = M.r ∧ M'.c = M.c ∧ M'.a.length = M.a.length := by
  unfold Matrix.set at h
  obtain ⟨a, ha, h2⟩ := bind_eq_ok h
  cases h2
  exact ⟨rfl, rfl, vecSet_length ha⟩

theorem Matrix.new_shape {rows cols : Int} {x : α} {M : Matrix α}
    (h : Matrix.new rows cols x = .ok M) : Shaped rows cols M := by
  unfold Matrix.new at h
  obtain ⟨a, ha, h2⟩ := bind_eq_ok h
  cases h2
  exact ⟨rfl, rfl, vecNew_length ha⟩

/-- A double loop whose iterations end with a write to the matrix keeps its dimensions and the
length of its vector. -/
theorem forLoop2_dims (R C : Int) (L : Nat) (n m : Nat)
    (body : Nat → Nat → Matrix α → Except Err (Matrix α))
    (hbody : ∀ i j M M', body i j M = .ok M' →
      M'.r = M.r ∧ M'.c = M.c ∧ M'.a.length = M.a.length)
    (M M' : Matrix α) (hM : M.r = R ∧ M.c = C ∧ M.a.length = L)
    (h : forLoop n (fun i M => forLoop m (fun j M => body i j M) M) M = .ok M') :
    M'.r = R ∧ M'.c = C ∧ M'.a.length = L := by
  refine forLoop_preserves (fun M => M.r = R ∧ M.c = C ∧ M.a.length = L) n _ ?_ M M' hM h
  intro i M1 M2 h1 hi
  refine forLoop_preserves (fun M => M.r = R ∧ M.c = C ∧ M.a.length = L) m _ ?_ M1 M2 h1 hi
  intro j M3 M4 h3 hj
  obtain ⟨e1, e2, e3⟩ := hbody i j M3 M4 hj
  exact ⟨e1 ▸ h3.1, e2 ▸ h3.2.1, e3 ▸ h3.2.2⟩

theorem forLoop2_shape (R C : Int) (n m : Nat)
    (body : Nat → Nat → Matrix α → Except Err (Matrix α))
    (hbody : ∀ i j M M', body i j M = .ok M' →
      M'.r = M.r ∧ M'.c = M.c ∧ M'.a.length = M.a.length)
    (M M' : Matrix α) (hM : Shaped R C M)
    (h : forLoop n (fun i M => forLoop m (fun j M => body i j M) M) M = .ok M') :
    Shaped R C M' := by
  obtain ⟨e1, e2, e3⟩ := forLoop2_dims R C M.a.length n m body hbody M M' ⟨hM.1, hM.2.1, rfl⟩ h
  exact ⟨e1, e2, e3 ▸ hM.2.2⟩

section shapeproofs
variable [LinearOrderedField α]

theorem transpose_shape {A T : Matrix α} (h : transpose A = .ok T) : Shaped A.c A.r T := by
  unfold transpose at h
  obtain ⟨T0, h0, h1⟩ := bind_eq_ok h
  refine forLoop2_shape _ _ _ _ _ ?_ T0 T (Matrix.new_shape h0) h1
  intro i j M M' hb
  obtain ⟨x, _, hs⟩ := bind_eq_ok hb
  exact Matrix.set_shape hs

theorem matmul_shape {A B C : Matrix α} (h : matmul A B = .ok C) :
    A.c = B.r ∧ Shaped A.r B.c C := by
  unfold matmul at h
  split at h
  · cases h
  · rename_i hdim
    refine ⟨by simpa using hdim, ?_⟩
    obtain ⟨C0, h0, h1⟩ := bind_eq_ok h
    refine forLoop_preserves (Shaped A.r B.c) _ _ ?_ C0 C (Matrix.new_shape h0) h1
    intro i M1 M2 hM1 hi
    refine forLoop_preserves (Shaped A.r B.c) _ _ ?_ M1 M2 hM1 hi
    intro k M3 M4 hM3 hk
    obtain ⟨aik, _, hk2⟩ := bind_eq_ok hk
    refine forLoop_preserves (Shaped A.r B.c) _ _ ?_ M3 M4 hM3 hk2
    intro j M5 M6 hM5 hj
    obtain ⟨bkj, _, hj2⟩ := bind_eq_ok hj
    obtain ⟨cij, _, hj3⟩ := bind_eq_ok hj2
    obtain ⟨e1, e2, e3⟩ := Matrix.set_shape hj3
    exact ⟨e1 ▸ hM5.1, e2 ▸ hM5.2.1, e3 ▸ hM5.2.2⟩

theorem addBiasCol_shape {A C : Matrix α} {b : List α} (h : addBiasCol A b = .ok C) :
    (b.length : Int) = A.r ∧ C.r = A.r ∧ C.c = A.c ∧ C.a.length = A.a.length := by
  unfold addBiasCol at h
  split at h
  · cases h
  · rename_i hb
    refine ⟨by simpa using hb, ?_⟩
    exact forLoop2_dims A.r A.c A.a.length _ _
      (fun (i j : Nat) (C : Matrix α) => do
        let bi ← vecGet b i
        let cij ← C.get i j
        C.set i j (cij + bi))
      (by
        intro i j M M' hb
        obtain ⟨x, _, h2⟩ := bind_eq_ok hb
        obtain ⟨y, _, h3⟩ := bind_eq_ok h2
        exact Matrix.set_shape h3)
      A C ⟨rfl, rfl, rfl⟩ h

theorem bipolarSigmoid_shape {exp : α → α} {X Y : Matrix α} (h : bipolarSigmoid exp X = .ok Y) :
    Shaped X.r X.c Y := by
  unfold bipolarSigmoid at h
  obtain ⟨Y0, h0, h1⟩ := bind_eq_ok h
  refine forLoop2_shape _ _ _ _ _ ?_ Y0 Y (Matrix.new_shape h0) h1
  intro i j M M' hb
  obtain ⟨x, _, hs⟩ := bind_eq_ok hb
  exact Matrix.set_shape hs

theorem normalizeInputs_shape {inputs cfgI Xn : Matrix α} {N F : Int}
    (h : normalizeInputs inputs cfgI N F = .ok Xn) : Shaped N F Xn := by
  unfold normalizeInputs at h
  obtain ⟨minI, _, h1⟩ := bind_eq_ok h
  obtain ⟨maxI, _, h2⟩ := bind_eq_ok h1
  obtain ⟨mm, _, h3⟩ := bind_eq_ok h2
  obtain ⟨X0, h0, h4⟩ := bind_eq_ok h3
  refine forLoop2_shape _ _ _ _ _ ?_ X0 Xn (Matrix.new_shape h0) h4
  intro i j M M' hb
  obtain ⟨x, _, hb1⟩ := bind_eq_ok hb
  obtain ⟨mn, _, hb2⟩ := bind_eq_ok hb1
  obtain ⟨mx, _, hb3⟩ := bind_eq_ok hb2
  exact Matrix.set_shape hb3

/-- The layers from the normalised inputs to `Omat`: the shape of a successful result. -/
theorem layers_shape {exp : α → α} {Xnt HW OW W H HE O1 Omat : Matrix α} {HB OB : List α}
    (h2 : matmul HW Xnt = .ok W) (h3 : addBiasCol W HB = .ok H)
    (h4 : bipolarSigmoid exp H = .ok HE) (h5 : matmul OW HE = .ok O1)
    (h6 : addBiasCol O1 OB = .ok Omat) : Shaped OW.r Xnt.c Omat := by
  obtain ⟨_, s2⟩ := matmul_shape h2
  obtain ⟨_, _, s3, _⟩ := addBiasCol_shape h3
  have s4 := bipolarSigmoid_shape h4
  obtain ⟨_, s5⟩ := matmul_shape h5
  obtain ⟨_, t1, t2, t3⟩ := addBiasCol_shape h6
  refine ⟨t1.trans s5.1, ?_, ?_⟩
  · rw [t2, s5.2.1, s4.2.1, s3, s2.2.1]
  · rw [t3, s5.2.2, s4.2.1, s3, s2.2.1]

theorem readMatrixFixed_shape {path : String} {file : Option (List (Tok α))} {rows cols : Int}
    {M : Matrix α} (h : readMatrixFixed path file rows cols = .ok M) :
    readAllNumbers path file = .ok M.a ∧ Shaped rows cols M := by
  unfold readMatrixFixed at h
  obtain ⟨nums, hn, h1⟩ := bind_eq_ok h
  split at h1
  · cases h1
  · rename_i hl
    obtain ⟨m, hm, h2⟩ := bind_eq_ok h1
    cases h2
    have s := Matrix.new_shape hm
    exact ⟨hn, s.1, s.2.1, by simpa using hl⟩

end shapeproofs

theorem readVectorFixed_ok {path : String} {file : Option (List (Tok α))} {n : Int}
    {v : List α} (h : readVectorFixed path file n = .ok v) :
    readAllNumbers path file = .ok v ∧ (v.length : Int) = n := by
  unfold readVectorFixed at h
  obtain ⟨nums, hn, h1⟩ := bind_eq_ok h
  split at h1
  · cases h1
  · rename_i hl
    cases h1
    exact ⟨hn, by simpa using hl⟩

theorem readAllNumbers_ok {path : String} {file : Option (List (Tok α))} {nums : List α}
    (h : readAllNumbers path file = .ok nums) : Parses file nums := by
  unfold readAllNumbers at h
  cases file with
  | none => cases h
  | some toks =>
    simp only at h
    split at h
    · cases h
    · rename_i hne
      cases h
      exact ⟨toks, rfl, rfl, by simpa using hne⟩

section shapeproofs2
variable [LinearOrderedField α]

theorem readCsvMatrix_shape {path : String} {file : Option (List (List (Option (Tok α))))}
    {M : Matrix α} (h : readCsvMatrix path file = .ok M) :
    ∃ lines rows, file = some lines ∧ parseRows lines = .ok rows ∧ rows ≠ [] ∧
      M.r = (rows.length : Int) ∧ (M.a.length : Int) = M.r * M.c := by
  unfold readCsvMatrix at h
  cases file with
  | none => cases h
  | some lines =>
    simp only at h
    obtain ⟨rows, hrows, h1⟩ := bind_eq_ok h
    split at h1
    · cases h1
    · rename_i hne
      obtain ⟨row0, _, h2⟩ := bind_eq_ok h1
      obtain ⟨_, _, h3⟩ := bind_eq_ok h2
      obtain ⟨M0, h0, h4⟩ := bind_eq_ok h3
      have s := forLoop2_shape _ _ _ _ _ (by
        intro i j M1 M2 hb
        obtain ⟨rowi, _, hb1⟩ := bind_eq_ok hb
        obtain ⟨x, _, hb2⟩ := bind_eq_ok hb1
        exact Matrix.set_shape hb2) M0 M (Matrix.new_shape h0) h4
      refine ⟨lines, rows, rfl, hrows, by simpa using hne, s.1, ?_⟩
      rw [s.2.2, s.1, s.2.1]

theorem resolveOutput_ok {HN OUT : Int} {owFile obFile : Option (List (Tok α))}
    {OW : Matrix α} {OB : List α} (h : resolveOutput HN owFile obFile = .ok (OUT, OW, OB)) :
    ∃ owNums, readAllNumbers "ANNSFM_CS_OW.txt" owFile = .ok owNums ∧
      Int.tmod (owNums.length : Int) HN = 0 ∧ OUT = Int.tdiv (owNums.length : Int) HN ∧
      OW = ⟨OUT, HN, owNums⟩ ∧ readVectorFixed "ANNSFM_CS_OB.txt" obFile OUT = .ok OB := by
  unfold resolveOutput at h
  obtain ⟨owNums, hn, h1⟩ := bind_eq_ok h
  split at h1
  · cases h1
  · rename_i hmod
    obtain ⟨OW0, h0, h2⟩ := bind_eq_ok h1
    obtain ⟨OB', hb, h3⟩ := bind_eq_ok h2
    have s := Matrix.new_shape h0
    cases h3
    refine ⟨owNums, hn, by simpa using hmod, rfl, ?_, hb⟩
    rw [s.1, s.2.1]

end shapeproofs2

/-! ## Claims C1 to C3: the forward pass and `matmul` -/

section claims_forward
variable [LinearOrderedField α]

end claims_forward

section claims_matmul
variable [LinearOrderedField α]

/-- Claim C3. The call `matmul(A, B)` fails with the dimension-mismatch error if and only if
`A.c != B.r`, and in that case no result matrix is produced: the check comes first, so the
mismatch is reported whatever the allocation of the result would do. -/
theorem matmul_mismatch_iff (A B : Matrix α) :
    (matmul A B = .error .matmulDim ↔ A.c ≠ B.r) ∧
      (A.c ≠ B.r → ∀ C, matmul A B ≠ .ok C) := by
  have hfail : A.c ≠ B.r → matmul A B = .error .matmulDim := by
    intro h
    unfold matmul
    simp [h]
  refine ⟨⟨fun h hdim => ?_, hfail⟩, fun h C hC => ?_⟩
  · rcases matmul_error hdim h with h1 | h1 <;> cases h1
  · rw [hfail h] at hC
    cases hC

end claims_matmul

/-! ### Witnesses for C1 to C3 -/

/-- Witness for C3: a `2 x 3` matrix times a `2 x 2` matrix. -/
theorem matmul_mismatch_iff_witness :
    (3 : Int) ≠ 2 ∧
    matmul (⟨2, 3, [1, 2, 3, 4, 5, 6]⟩ : Matrix ℚ) ⟨2, 2, [5, 6, 7, 8]⟩ = .error .matmulDim :=
  ⟨by decide, (matmul_mismatch_iff (⟨2, 3, [1, 2, 3, 4, 5, 6]⟩ : Matrix ℚ)
    ⟨2, 2, [5, 6, 7, 8]⟩).1.2 (by decide)⟩

section claims_shape
variable [LinearOrderedField α]

/-- Claim C5. Every successful run of the forward pipeline returns an output matrix `Omat` with
exactly `OUT` rows and `N` columns (and `OUT * N` elements), where `OUT` is the number of
output-weight values divided by `HN` and `N` the number of input samples.
First conjunct: `main` of `stormtide_ann_csv.cpp` (`N = inputs.r`, `HN = HW.r`, the output-weight
values are the elements of the loaded `OW`). Second conjunct: `main` of
`stormtide_ann_inference.cpp` (the input file holds `N * F` numbers). -/
theorem output_shape (exp : α → α) :
    (∀ (fs : CsvFiles α) (Omat : Matrix α), mainCsvOmat exp fs = .ok Omat →
      ∃ inputs HW OW, readCsvMatrix "ANNSFM_inputs.csv" fs.inputs = .ok inputs ∧
        readCsvMatrix "ANNSFM_CS_HW.csv" fs.hw = .ok HW ∧
        readCsvMatrix "ANNSFM_CS_OW.csv" fs.ow = .ok OW ∧
        Omat.r = Int.tdiv (OW.a.length : Int) HW.r ∧ Omat.c = inputs.r ∧
        (Omat.a.length : Int) = Omat.r * Omat.c)
    ∧
    (∀ (N F HN : Int) (fs : TxtFiles α) (Omat : Matrix α),
      forwardFixed exp N F HN fs = .ok Omat →
      ∃ inNums owNums, readAllNumbers "ANNSFM_inputs.txt" fs.inputs = .ok inNums ∧
        (inNums.length : Int) = N * F ∧
        readAllNumbers "ANNSFM_CS_OW.txt" fs.ow = .ok owNums ∧
        Omat.r = Int.tdiv (owNums.length : Int) HN ∧ Omat.c = N ∧
        (Omat.a.length : Int) = Omat.r * Omat.c) := by
  constructor
  · intro fs Omat h
    unfold mainCsvOmat at h
    obtain ⟨inputs, e1, h⟩ := bind_eq_ok h
    obtain ⟨cfgI, _, h⟩ := bind_eq_ok h
    obtain ⟨HW, e3, h⟩ := bind_eq_ok h
    obtain ⟨HB, _, h⟩ := bind_eq_ok h
    obtain ⟨OW, e5, h⟩ := bind_eq_ok h
    obtain ⟨OB, _, h⟩ := bind_eq_ok h
    refine ⟨inputs, HW, OW, e1, e3, e5, ?_⟩
    unfold forwardCsv at h
    simp only at h
    split at h
    · cases h
    split at h
    · cases h
    split at h
    · cases h
    split at h
    · cases h
    rename_i hOWc
    split at h
    · cases h
    obtain ⟨Xn, h0, h⟩ := bind_eq_ok h
    obtain ⟨Xnt, h1, h⟩ := bind_eq_ok h
    obtain ⟨W, h2, h⟩ := bind_eq_ok h
    obtain ⟨H, h3, h⟩ := bind_eq_ok h
    obtain ⟨HE, h4, h⟩ := bind_eq_ok h
    obtain ⟨O1, h5, h6⟩ := bind_eq_ok h
    have s := layers_shape h2 h3 h4 h5 h6
    have sx := normalizeInputs_shape h0
    have st := transpose_shape h1
    obtain ⟨_, rowsH, _, _, hneH, hHr, _⟩ := readCsvMatrix_shape e3
    obtain ⟨_, _, _, _, _, _, hOWl⟩ := readCsvMatrix_shape e5
    have hOWc' : OW.c = HW.r := by simpa using hOWc
    have hHpos : HW.r ≠ 0 := by
      rw [hHr]
      have : rowsH.length ≠ 0 := fun h0 => hneH (List.length_eq_zero.mp h0)
      exact_mod_cast this
    refine ⟨?_, ?_, ?_⟩
    · rw [s.1, hOWl, hOWc', Int.mul_tdiv_cancel _ hHpos]
    · rw [s.2.1, st.2.1, sx.1]
    · rw [s.2.2, s.1, s.2.1]
  · intro N F HN fs Omat h
    unfold forwardFixed at h
    obtain ⟨inputs, e1, h⟩ := bind_eq_ok h
    obtain ⟨cfgI, _, h⟩ := bind_eq_ok h
    obtain ⟨Xn, h0, h⟩ := bind_eq_ok h
    obtain ⟨T0, hT0, h⟩ := bind_eq_ok h
    obtain ⟨Xnt, hT, h⟩ := bind_eq_ok h
    obtain ⟨HW, _, h⟩ := bind_eq_ok h
    obtain ⟨HB, _, h⟩ := bind_eq_ok h
    obtain ⟨W, h2, h⟩ := bind_eq_ok h
    obtain ⟨H, h3, h⟩ := bind_eq_ok h
    obtain ⟨HE, h4, h⟩ := bind_eq_ok h
    obtain ⟨⟨OUT, OW, OB⟩, hres, h⟩ := bind_eq_ok h
    simp only at h
    obtain ⟨O1, h5, h6⟩ := bind_eq_ok h
    have s := layers_shape h2 h3 h4 h5 h6
    have st := forLoop2_shape _ _ _ _ _ (by
      intro i j M1 M2 hb
      obtain ⟨x, _, hb1⟩ := bind_eq_ok hb
      exact Matrix.set_shape hb1) T0 Xnt (Matrix.new_shape hT0) hT
    obtain ⟨owNums, hn, _, hOUT, hOW, _⟩ := resolveOutput_ok hres
    obtain ⟨hin, sin⟩ := readMatrixFixed_shape e1
    refine ⟨inputs.a, owNums, hin, sin.2.2, hn, ?_, ?_, ?_⟩
    · rw [s.1, hOW, ← hOUT]
    · rw [s.2.1, st.2.1]
    · rw [s.2.2, s.1, s.2.1]

end claims_shape

/-- Witness for C5: one run of each pipeline over the rationals (two samples, two features, one
hidden neuron, one output; `1 + x` stands for the exponential). -/
theorem output_shape_witness :
    (mainCsvOmat (fun x : ℚ => 1 + x)
      ⟨some [[some (.num 1), some (.num 2)], [some (.num 3), some (.num 4)]],
       some [[some (.num 0), some (.num 0)], [some (.num 4), some (.num 4)]],
       some [[some (.num 1), some (.num 1)]], some [[some (.num 0)]],
       some [[some (.num 2)]], some [[some (.num 5)]]⟩ = .ok ⟨1, 2, [13 / 3, -1]⟩ ∧
     ∃ inputs HW OW : Matrix ℚ, readCsvMatrix "ANNSFM_inputs.csv"
        (some [[some (.num 1), some (.num 2)], [some (.num 3), some (.num 4)]]) = .ok inputs ∧
      readCsvMatrix "ANNSFM_CS_HW.csv" (some [[some (.num 1), some (.num 1)]]) = .ok HW ∧
      readCsvMatrix "ANNSFM_CS_OW.csv" (some [[some (.num 2)]]) = .ok OW ∧
      (1 : Int) = Int.tdiv (OW.a.length : Int) HW.r ∧ (2 : Int) = inputs.r ∧
      (([13 / 3, -1] : List ℚ).length : Int) = 1 * 2) ∧
    (forwardFixed (fun x : ℚ => 1 + x) 2 2 1
      ⟨some [.num 1, .num 2, .num 3, .num 4], some [.num 0, .num 0, .num 4, .num 4],
       some [.num 1, .num 1], some [.num 0], some [.num 2], some [.num 5]⟩
        = .ok ⟨1, 2, [13 / 3, -1]⟩ ∧
     ∃ inNums owNums : List ℚ, readAllNumbers "ANNSFM_inputs.txt"
        (some [.num 1, .num 2, .num 3, .num 4]) = .ok inNums ∧
      (inNums.length : Int) = 2 * 2 ∧
      readAllNumbers "ANNSFM_CS_OW.txt" (some [.num 2]) = .ok owNums ∧
      (1 : Int) = Int.tdiv (owNums.length : Int) 1 ∧ (2 : Int) = 2 ∧
      (([13 / 3, -1] : List ℚ).length : Int) = 1 * 2) :=
  ⟨⟨by decide!, (output_shape (fun x : ℚ => 1 + x)).1
      ⟨some [[some (.num 1), some (.num 2)], [some (.num 3), some (.num 4)]],
       some [[some (.num 0), some (.num 0)], [some (.num 4), some (.num 4)]],
       some [[some (.num 1), some (.num 1)]], some [[some (.num 0)]],
       some [[some (.num 2)]], some [[some (.num 5)]]⟩ ⟨1, 2, [13 / 3, -1]⟩ (by decide!)⟩,
   ⟨by decide!, (output_shape (fun x : ℚ => 1 + x)).2 2 2 1
      ⟨some [.num 1, .num 2, .num 3, .num 4], some [.num 0, .num 0, .num 4, .num 4],
       some [.num 1, .num 1], some [.num 0], some [.num 2], some [.num 5]⟩
      ⟨1, 2, [13 / 3, -1]⟩ (by decide!)⟩⟩

section claims_loading
variable [LinearOrderedField α]

/-- Claim C4, amended. Output-cardinality resolution in the fixed-size pipeline, for a non-empty
list of `L` output-weight numbers and hidden size `HN = 12`: resolution fails with the shape
error iff `L mod 12 != 0`; otherwise `OUT = L / 12 >= 1`, the output-weight matrix is
`OUT x 12` and holds the numbers in row-major order, and loading the output bias succeeds only
if its parsed length equals `OUT`; a bias file with a non-empty parsed list of another length
fails with the size-mismatch error (expected `OUT`, got the parsed length), and a bias file from
which no number is parsed fails with the no-data error. -/
theorem resolveOutput_spec (owFile : Option (List (Tok α))) (owNums : List α)
    (how : Parses owFile owNums) :
    (∀ obFile, resolveOutput 12 owFile obFile =
        .error (.shape "CS_OW size must be multiple of hidden size(12).") ↔
      owNums.length % 12 ≠ 0) ∧
    (owNums.length % 12 = 0 →
      1 ≤ owNums.length / 12 ∧
      (∀ o h : Nat, o < owNums.length / 12 → h < 12 →
        (⟨((owNums.length / 12 : Nat) : Int), 12, owNums⟩ : Matrix α).get (o : Int) (h : Int) =
          .ok (owNums.getD (o * 12 + h) 0)) ∧
      (∀ obFile OUT OW OB, resolveOutput 12 owFile obFile = .ok (OUT, OW, OB) →
        OUT = ((owNums.length / 12 : Nat) : Int) ∧ OW = ⟨OUT, 12, owNums⟩ ∧
          Parses obFile OB ∧ (OB.length : Int) = OUT) ∧
      (∀ obFile obNums, Parses obFile obNums →
        (obNums.length = owNums.length / 12 →
          resolveOutput 12 owFile obFile =
            .ok (((owNums.length / 12 : Nat) : Int),
              ⟨((owNums.length / 12 : Nat) : Int), 12, owNums⟩, obNums)) ∧
        (obNums.length ≠ owNums.length / 12 →
          resolveOutput 12 owFile obFile =
            .error (.sizeMismatch "ANNSFM_CS_OB.txt" ((owNums.length / 12 : Nat) : Int)
              obNums.length))) ∧
      (∀ obToks : List (Tok α), extractNums obToks = [] →
        resolveOutput 12 owFile (some obToks) = .error (.noData "ANNSFM_CS_OB.txt"))) := by
  have hne : owNums ≠ [] := by
    obtain ⟨_, _, _, h⟩ := how
    exact h
  have hpos : 0 < owNums.length := List.length_pos.mpr hne
  have e1 : Int.tmod ((owNums.length : Nat) : Int) 12 = ((owNums.length % 12 : Nat) : Int) := by
    rw [Int.ofNat_tmod]; rfl
  have e2 : Int.tdiv ((owNums.length : Nat) : Int) 12 = ((owNums.length / 12 : Nat) : Int) := by
    rw [Int.ofNat_tdiv]; rfl
  have hres : ∀ obFile, resolveOutput 12 owFile obFile =
      if owNums.length % 12 ≠ 0 then
        .error (.shape "CS_OW size must be multiple of hidden size(12).")
      else (readVectorFixed "ANNSFM_CS_OB.txt" obFile ((owNums.length / 12 : Nat) : Int) >>=
        fun OB => .ok (((owNums.length / 12 : Nat) : Int),
          ⟨((owNums.length / 12 : Nat) : Int), 12, owNums⟩, OB)) := by
    intro obFile
    obtain ⟨M0, hM0, hrep0⟩ := Rep.new_ok (owNums.length / 12) 12 (0 : α)
    unfold resolveOutput
    rw [readAllNumbers_parses how]
    simp only [bind, Except.bind, e1, e2]
    by_cases hm : owNums.length % 12 = 0
    · have hM0' : Matrix.new ((owNums.length / 12 : Nat) : Int) 12 (0 : α) = .ok M0 := hM0
      simp only [hm, Nat.cast_zero, ne_eq, not_true_eq_false, ↓reduceIte, hM0']
      have hr : M0.r = ((owNums.length / 12 : Nat) : Int) := hrep0.1
      have hc : M0.c = 12 := hrep0.2.1
      rw [hr, hc]
      rfl
    · have : ((owNums.length % 12 : Nat) : Int) ≠ 0 := by exact_mod_cast hm
      rw [if_pos this, if_pos hm]
  refine ⟨fun obFile => ?_, fun hm => ⟨?_, ?_, ?_, ?_, ?_⟩⟩
  · rw [hres]
    constructor
    · intro h
      by_contra hm
      rw [if_neg (not_not.mpr hm)] at h
      rcases bind_eq_error h with h1 | ⟨b, _, h2⟩
      · unfold readVectorFixed at h1
        rcases bind_eq_error h1 with h3 | ⟨nums, _, h4⟩
        · unfold readAllNumbers at h3
          cases obFile with
          | none => cases h3
          | some toks =>
            simp only at h3
            split at h3 <;> cases h3
        · split at h4 <;> cases h4
      · cases h2
    · intro hm
      rw [if_pos hm]
  · omega
  · intro o h ho hh
    have hl : owNums.length = owNums.length / 12 * 12 := by omega
    have := (Rep.of_list (owNums.length / 12) 12 owNums hl).get_ok ho hh
    simpa using this
  · intro obFile OUT OW OB hok
    obtain ⟨nums', hn', _, hOUT, hOW, hvec⟩ := resolveOutput_ok hok
    rw [readAllNumbers_parses how] at hn'
    cases hn'
    obtain ⟨hp, hlen⟩ := readVectorFixed_ok hvec
    exact ⟨by rw [hOUT, e2], hOW, readAllNumbers_ok hp, hlen⟩
  · intro obFile obNums hob
    constructor
    · intro hl
      rw [hres, if_neg (by simpa using hm), readVectorFixed_parses hob _ _ hl]
      rfl
    · intro hl
      rw [hres, if_neg (by simpa using hm)]
      unfold readVectorFixed
      rw [readAllNumbers_parses hob]
      have : ((obNums.length : Nat) : Int) ≠ ((owNums.length / 12 : Nat) : Int) := by
        exact_mod_cast hl
      simp only [bind, Except.bind]
      rw [if_pos this]
  · intro obToks hob
    rw [hres, if_neg (by simpa using hm)]
    simp [readVectorFixed, readAllNumbers, hob, bind, Except.bind]

end claims_loading

/-- Counterexample to C4 as stated: with twelve output-weight numbers (`OUT = 1`) and a bias
file from which no number is parsed, the parsed length `0` differs from `OUT`, and the failure is
the no-data error of `readAllNumbers`, not a size-mismatch error. -/
theorem resolveOutput_empty_bias_counterexample :
    (extractNums ([] : List (Tok ℚ))).length ≠ 12 / 12 ∧
    resolveOutput 12 (some (List.replicate 12 (Tok.num (1 : ℚ)))) (some [])
      = .error (.noData "ANNSFM_CS_OB.txt") ∧
    ∀ expected got, resolveOutput 12 (some (List.replicate 12 (Tok.num (1 : ℚ)))) (some [])
      ≠ .error (.sizeMismatch "ANNSFM_CS_OB.txt" expected got) := by
  have h : resolveOutput 12 (some (List.replicate 12 (Tok.num (1 : ℚ)))) (some [])
      = .error (.noData "ANNSFM_CS_OB.txt") := by decide!
  refine ⟨by decide, h, fun expected got h' => ?_⟩
  rw [h] at h'
  cases h'

/-- Witness for C4: twenty-four output-weight numbers give `OUT = 2`, and a bias file with two
numbers is loaded. -/
theorem resolveOutput_spec_witness :
    Parses (some (List.replicate 24 (Tok.num (1 : ℚ)))) (List.replicate 24 (1 : ℚ)) ∧
    (List.replicate 24 (1 : ℚ)).length % 12 = 0 ∧
    resolveOutput 12 (some (List.replicate 24 (Tok.num (1 : ℚ)))) (some [.num 7, .num 8])
      = .ok (2, ⟨2, 12, List.replicate 24 (1 : ℚ)⟩, [7, 8]) :=
  ⟨⟨_, rfl, by decide, by decide⟩, by decide,
   (((resolveOutput_spec (some (List.replicate 24 (Tok.num (1 : ℚ))))
     (List.replicate 24 (1 : ℚ)) ⟨_, rfl, by decide, by decide⟩).2 (by decide)).2.2.2.1
       (some [.num 7, .num 8]) [7, 8] ⟨_, rfl, by decide, by decide⟩).1 (by decide)⟩

section claims_fixed
variable [LinearOrderedField α]

/-- Claim C6, amended. Fixed-shape loading, for every expected `rows`, `cols` (or vector length
`n`). For a file from which a non-empty sequence of numbers is parsed: if the count of parsed
numbers differs from `rows * cols` (resp. `n`), `readMatrixFixed` (resp. `readVectorFixed`) fails
with the size-mismatch error carrying the expected and the actual count and returns no matrix;
if the counts agree it returns the `rows x cols` matrix whose `(i, j)` entry is the parsed
number of index `i * cols + j` (resp. the parsed numbers). For a file from which the empty
sequence is parsed, both fail with the no-data error of `readAllNumbers`, whatever the expected
shape, and return no matrix. -/
theorem readFixed_spec (path : String) (file : Option (List (Tok α))) :
    (∀ nums : List α, Parses file nums →
      (∀ rows cols : Int,
        ((nums.length : Int) ≠ rows * cols →
          readMatrixFixed path file rows cols =
            .error (.sizeMismatch path (rows * cols) nums.length) ∧
          ∀ M, readMatrixFixed path file rows cols ≠ .ok M) ∧
        ((nums.length : Int) = rows * cols →
          readMatrixFixed path file rows cols = .ok ⟨rows, cols, nums⟩ ∧
          ∀ i j : Nat, (i : Int) < rows → (j : Int) < cols →
            (⟨rows, cols, nums⟩ : Matrix α).get (i : Int) (j : Int) =
              .ok (nums.getD (i * cols.toNat + j) 0))) ∧
      (∀ n : Int,
        ((nums.length : Int) ≠ n →
          readVectorFixed path file n = .error (.sizeMismatch path n nums.length)) ∧
        ((nums.length : Int) = n → readVectorFixed path file n = .ok nums))) ∧
    (∀ toks : List (Tok α), file = some toks → extractNums toks = [] →
      (∀ rows cols : Int,
        readMatrixFixed path file rows cols = .error (.noData path) ∧
        ∀ M, readMatrixFixed path file rows cols ≠ .ok M) ∧
      (∀ n : Int,
        readVectorFixed path file n = .error (.noData path) ∧
        ∀ v, readVectorFixed path file n ≠ .ok v)) := by
  refine ⟨fun nums hp => ⟨fun rows cols => ⟨fun hne => ?_, fun heq => ⟨?_, ?_⟩⟩,
    fun n => ⟨fun hne => ?_, fun heq => ?_⟩⟩, fun toks hf he => ?_⟩
  · have h : readMatrixFixed path file rows cols =
        .error (.sizeMismatch path (rows * cols) nums.length) := by
      unfold readMatrixFixed
      rw [readAllNumbers_parses hp]
      simp only [bind, Except.bind]
      rw [if_pos hne]
    refine ⟨h, fun M hM => ?_⟩
    rw [h] at hM
    cases hM
  · unfold readMatrixFixed
    rw [readAllNumbers_parses hp]
    have hnn : ¬ rows * cols < 0 := by rw [← heq]; omega
    simp only [bind, Except.bind, Matrix.new, vecNew]
    rw [if_neg (not_not.mpr heq), if_neg hnn]
    rfl
  · intro i j hi hj
    have hr : 0 ≤ rows := by omega
    have hc : 0 ≤ cols := by omega
    obtain ⟨R, hR⟩ := Int.eq_ofNat_of_zero_le hr
    obtain ⟨C, hC⟩ := Int.eq_ofNat_of_zero_le hc
    subst hR hC
    have hl : nums.length = R * C := by exact_mod_cast heq
    have := (Rep.of_list R C nums hl).get_ok (i := i) (j := j) (by exact_mod_cast hi)
      (by exact_mod_cast hj)
    simpa using this
  · unfold readVectorFixed
    rw [readAllNumbers_parses hp]
    simp only [bind, Except.bind]
    rw [if_pos hne]
  · unfold readVectorFixed
    rw [readAllNumbers_parses hp]
    simp only [bind, Except.bind]
    rw [if_neg (not_not.mpr heq)]
    rfl
  · have hna : readAllNumbers path file = .error (.noData path) := by
      subst hf
      unfold readAllNumbers
      simp only [he]
      rfl
    have hm : ∀ rows cols : Int,
        readMatrixFixed path file rows cols = .error (.noData path) := by
      intro rows cols
      unfold readMatrixFixed
      rw [hna]
      rfl
    have hv : ∀ n : Int, readVectorFixed path file n = .error (.noData path) := by
      intro n
      unfold readVectorFixed
      rw [hna]
      rfl
    refine ⟨fun rows cols => ⟨hm rows cols, fun M hM => ?_⟩, fun n => ⟨hv n, fun v hv2 => ?_⟩⟩
    · rw [hm] at hM
      cases hM
    · rw [hv] at hv2
      cases hv2

end claims_fixed

/-- Counterexample to C6 as stated: for the empty sequence of parsed numbers, whose count `0`
differs from `1 * 1`, `readMatrixFixed` and `readVectorFixed` fail with the no-data error of
`readAllNumbers` instead of the size-mismatch error; and for `rows = cols = 0`, where the counts
agree, no matrix is returned. -/
theorem readFixed_empty_counterexample :
    ((extractNums ([] : List (Tok ℚ))).length : Int) ≠ 1 * 1 ∧
    readMatrixFixed "f.txt" (some ([] : List (Tok ℚ))) 1 1 = .error (.noData "f.txt") ∧
    readMatrixFixed "f.txt" (some ([] : List (Tok ℚ))) 1 1 ≠ .error (.sizeMismatch "f.txt" 1 0) ∧
    readVectorFixed "f.txt" (some ([] : List (Tok ℚ))) 1 = .error (.noData "f.txt") ∧
    ((extractNums ([] : List (Tok ℚ))).length : Int) = 0 * 0 ∧
    readMatrixFixed "f.txt" (some ([] : List (Tok ℚ))) 0 0 = .error (.noData "f.txt") := by
  refine ⟨by decide, by decide!, by decide!, by decide!, by decide, by decide!⟩

/-- Witness for C6: six parsed numbers loaded as a `2 x 3` matrix, and a file from which no
number is parsed, which fails with the no-data error for the expected shape `5 x 7`. -/
theorem readFixed_spec_witness :
    Parses (some [Tok.num (1 : ℚ), .num 2, .num 3, .num 4, .num 5, .num 6]) [1, 2, 3, 4, 5, 6] ∧
    readMatrixFixed "f.txt" (some [Tok.num (1 : ℚ), .num 2, .num 3, .num 4, .num 5, .num 6]) 2 3
      = .ok ⟨2, 3, [1, 2, 3, 4, 5, 6]⟩ ∧
    readMatrixFixed "f.txt" (some ([] : List (Tok ℚ))) 5 7 = .error (.noData "f.txt") :=
  ⟨⟨_, rfl, by decide, by decide⟩,
   ((((readFixed_spec "f.txt" (some [Tok.num (1 : ℚ), .num 2, .num 3, .num 4, .num 5, .num 6])).1
     [1, 2, 3, 4, 5, 6] ⟨_, rfl, by decide, by decide⟩).1 2 3).2 (by decide)).1,
   ((((readFixed_spec "f.txt" (some ([] : List (Tok ℚ)))).2 [] rfl rfl).1 5 7).1)⟩

/-! ## Claims C7 to C10: `normalize_bipolar` -/

section claims_normalize
variable [LinearOrderedField α]

theorem eps_pos : (0 : α) < 1e-12 := by norm_num

theorem normalize_bipolar_of_wide (x mn mx : α) (h : 1e-12 ≤ |mx - mn|) :
    normalize_bipolar x mn mx = -1 + 2 * (x - mn) / (mx - mn) := by
  unfold normalize_bipolar
  simp only
  rw [if_neg (not_lt.mpr h)]

theorem normalize_bipolar_of_narrow (x mn mx : α) (h : |mx - mn| < 1e-12) :
    normalize_bipolar x mn mx = 0 := by
  unfold normalize_bipolar
  simp only
  rw [if_pos h]

/-- Claim C7, amended. For all `mn`, `mx` with `mx - mn >= 1e-12`,
`normalize_bipolar(mn, mn, mx) = -1` and `normalize_bipolar(mx, mn, mx) = 1`. -/
theorem normalize_bipolar_bounds (mn mx : α) (h : 1e-12 ≤ mx - mn) :
    normalize_bipolar mn mn mx = -1 ∧ normalize_bipolar mx mn mx = 1 := by
  have hpos : 0 < mx - mn := lt_of_lt_of_le eps_pos h
  have habs : (1e-12 : α) ≤ |mx - mn| := le_trans h (le_abs_self _)
  have hne : mx - mn ≠ 0 := ne_of_gt hpos
  constructor
  · rw [normalize_bipolar_of_wide _ _ _ habs]
    simp
  · rw [normalize_bipolar_of_wide _ _ _ habs, mul_div_assoc, div_self hne]
    norm_num

/-- Claim C8. The function `normalize_bipolar` is the piecewise function: it returns `0` when
`|mx - mn| < 1e-12` (in particular `normalize_bipolar(x, a, a) = 0` for every `x` and `a`) and
`-1 + 2 * (x - mn) / (mx - mn)` otherwise; it is total, and the division is only reached with a
divisor different from zero. -/
theorem normalize_bipolar_piecewise (x mn mx : α) :
    (|mx - mn| < 1e-12 → normalize_bipolar x mn mx = 0) ∧
    (¬ |mx - mn| < 1e-12 →
      normalize_bipolar x mn mx = -1 + 2 * (x - mn) / (mx - mn) ∧ mx - mn ≠ 0) ∧
    (∀ a : α, normalize_bipolar x a a = 0) := by
  refine ⟨normalize_bipolar_of_narrow x mn mx, fun h => ⟨?_, ?_⟩, fun a => ?_⟩
  · exact normalize_bipolar_of_wide x mn mx (not_lt.mp h)
  · intro h0
    apply h
    rw [h0, abs_zero]
    exact eps_pos
  · apply normalize_bipolar_of_narrow
    rw [sub_self, abs_zero]
    exact eps_pos

/-- Claim C9. Round trip: for every `x`, `mn`, `mx` with `|mx - mn| >= 1e-12`, the inverse rescale
of the pipeline, `denormalize(y, mn, mx) = (y + 1) / 2 * (mx - mn) + mn`, applied to
`normalize_bipolar(x, mn, mx)` returns `x`. -/
theorem denormalize_normalize (x mn mx : α) (h : 1e-12 ≤ |mx - mn|) :
    denormalize (normalize_bipolar x mn mx) mn mx = x := by
  have hne : mx - mn ≠ 0 := by
    intro h0
    rw [h0, abs_zero] at h
    exact absurd h (not_le.mpr eps_pos)
  rw [normalize_bipolar_of_wide _ _ _ h]
  unfold denormalize
  field_simp
  ring

/-- Claim C10. The function `normalize_bipolar` maps the bound interval into `[-1, 1]` and
preserves order: for `mn <= mx` and `mn <= x <= mx`, `-1 <= normalize_bipolar(x, mn, mx) <= 1`;
and for `mx - mn >= 1e-12`, `x <= y` implies
`normalize_bipolar(x, mn, mx) <= normalize_bipolar(y, mn, mx)`. -/
theorem normalize_bipolar_range_mono :
    (∀ x mn mx : α, mn ≤ mx → mn ≤ x → x ≤ mx →
      -1 ≤ normalize_bipolar x mn mx ∧ normalize_bipolar x mn mx ≤ 1) ∧
    (∀ x y mn mx : α, 1e-12 ≤ mx - mn → x ≤ y →
      normalize_bipolar x mn mx ≤ normalize_bipolar y mn mx) := by
  constructor
  · intro x mn mx hle hx1 hx2
    by_cases hn : |mx - mn| < 1e-12
    · rw [normalize_bipolar_of_narrow _ _ _ hn]
      constructor <;> norm_num
    · have habs : (1e-12 : α) ≤ |mx - mn| := not_lt.mp hn
      rw [abs_of_nonneg (sub_nonneg.mpr hle)] at habs
      have hpos : 0 < mx - mn := lt_of_lt_of_le eps_pos habs
      rw [normalize_bipolar_of_wide _ _ _ (not_lt.mp hn)]
      have h0 : 0 ≤ (x - mn) / (mx - mn) := div_nonneg (sub_nonneg.mpr hx1) hpos.le
      have h1 : (x - mn) / (mx - mn) ≤ 1 := by
        rw [div_le_one hpos]
        linarith
      rw [mul_div_assoc]
      constructor <;> linarith
  · intro x y mn mx h hxy
    have hpos : 0 < mx - mn := lt_of_lt_of_le eps_pos h
    have habs : (1e-12 : α) ≤ |mx - mn| := le_trans h (le_abs_self _)
    rw [normalize_bipolar_of_wide _ _ _ habs, normalize_bipolar_of_wide _ _ _ habs]
    have : (x - mn) / (mx - mn) ≤ (y - mn) / (mx - mn) :=
      div_le_div_of_nonneg_right (by linarith) hpos.le
    rw [mul_div_assoc, mul_div_assoc]
    linarith

end claims_normalize

/-- Counterexample to C7 as stated: `mn = 0 < mx = 1e-13`, yet both values are `0`, because the
range is below the threshold `1e-12` of the guard. -/
theorem normalize_bipolar_narrow_counterexample :
    (0 : ℚ) < 1e-13 ∧ normalize_bipolar (0 : ℚ) 0 1e-13 ≠ -1 ∧
      normalize_bipolar (1e-13 : ℚ) 0 1e-13 ≠ 1 := by
  have h : |(1e-13 : ℚ) - 0| < 1e-12 := by
    rw [sub_zero, abs_of_pos (by norm_num)]
    norm_num
  refine ⟨by norm_num, ?_, ?_⟩
  · rw [normalize_bipolar_of_narrow _ _ _ h]
    norm_num
  · rw [normalize_bipolar_of_narrow _ _ _ h]
    norm_num

/-- Witness for C7: the bounds `1` and `5`. -/
theorem normalize_bipolar_bounds_witness :
    (1e-12 : ℚ) ≤ 5 - 1 ∧ normalize_bipolar (1 : ℚ) 1 5 = -1 ∧ normalize_bipolar (5 : ℚ) 1 5 = 1 :=
  ⟨by norm_num, normalize_bipolar_bounds (1 : ℚ) 5 (by norm_num)⟩

/-- Witness for C8: a wide range and a degenerate range. -/
theorem normalize_bipolar_piecewise_witness :
    normalize_bipolar (3 : ℚ) 1 5 = -1 + 2 * (3 - 1) / (5 - 1) ∧ ((5 : ℚ) - 1 ≠ 0) ∧
      normalize_bipolar (3 : ℚ) 2 2 = 0 :=
  ⟨((normalize_bipolar_piecewise (3 : ℚ) 1 5).2.1 (by
      rw [abs_of_pos (by norm_num)]; norm_num)).1,
   ((normalize_bipolar_piecewise (3 : ℚ) 1 5).2.1 (by
      rw [abs_of_pos (by norm_num)]; norm_num)).2,
   (normalize_bipolar_piecewise (3 : ℚ) 2 2).1 (by norm_num)⟩

/-- Witness for C9: the value `3` in the range from `1` to `5`. -/
theorem denormalize_normalize_witness :
    (1e-12 : ℚ) ≤ |5 - 1| ∧ denormalize (normalize_bipolar (3 : ℚ) 1 5) 1 5 = 3 :=
  ⟨by rw [abs_of_pos (by norm_num)]; norm_num,
   denormalize_normalize (3 : ℚ) 1 5 (by rw [abs_of_pos (by norm_num)]; norm_num)⟩

/-- Witness for C10: the values `2` and `3` in the range from `1` to `5`. -/
theorem normalize_bipolar_range_mono_witness :
    (-1 ≤ normalize_bipolar (3 : ℚ) 1 5 ∧ normalize_bipolar (3 : ℚ) 1 5 ≤ 1) ∧
      normalize_bipolar (2 : ℚ) 1 5 ≤ normalize_bipolar (3 : ℚ) 1 5 :=
  ⟨(@normalize_bipolar_range_mono ℚ _).1 3 1 5 (by norm_num) (by norm_num) (by norm_num),
   (@normalize_bipolar_range_mono ℚ _).2 2 3 1 5 (by norm_num) (by norm_num)⟩

/-! ## Claims C11 and C12: the activation and element access -/

/-- Claim C11. The bipolar sigmoid computed elementwise by `bipolarSigmoid`,
`f(x) = 2 / (1 + exp(-2 x)) - 1`, equals `tanh(x)` for every real `x` and lies strictly between
`-1` and `1`; for a matrix `X` (non-negative dimensions, `r * c` elements) `bipolarSigmoid(X)`
succeeds with a matrix of the same shape whose entry `(i, j)` is `f(X(i, j))`. -/
theorem bipolarSigmoid_tanh :
    (∀ x : ℝ, sigmoidExpr Real.exp x = Real.tanh x ∧
      -1 < sigmoidExpr Real.exp x ∧ sigmoidExpr Real.exp x < 1) ∧
    (∀ X : Matrix ℝ, 0 ≤ X.r → 0 ≤ X.c → (X.a.length : Int) = X.r * X.c →
      ∃ Y, bipolarSigmoid Real.exp X = .ok Y ∧ Y.r = X.r ∧ Y.c = X.c ∧
        Y.a.length = X.a.length ∧
        ∀ i j : Nat, (i : Int) < X.r → (j : Int) < X.c →
          Y.get (i : Int) (j : Int) = .ok (2 / (1 + Real.exp (-2 * X.entry i j)) - 1)) := by
  constructor
  · intro x
    have hpos : 0 < Real.exp (-2 * x) := Real.exp_pos _
    have hden : 0 < 1 + Real.exp (-2 * x) := by linarith
    refine ⟨?_, ?_, ?_⟩
    · have h2 : Real.exp (-2 * x) = Real.exp (-x) * Real.exp (-x) := by
        rw [← Real.exp_add]; congr 1; ring
      have hx : Real.exp x * Real.exp (-x) = 1 := by
        rw [← Real.exp_add]; simp
      have hp : 0 < Real.exp x := Real.exp_pos x
      have hn : 0 < Real.exp (-x) := Real.exp_pos _
      unfold sigmoidExpr
      rw [Real.tanh_eq_sinh_div_cosh, Real.sinh_eq, Real.cosh_eq, h2]
      have hx' : Real.exp x = 1 / Real.exp (-x) := by
        field_simp; exact hx
      rw [hx']
      field_simp
      ring
    · unfold sigmoidExpr
      have : 0 < 2 / (1 + Real.exp (-2 * x)) := div_pos (by norm_num) hden
      linarith
    · unfold sigmoidExpr
      have : 2 / (1 + Real.exp (-2 * x)) < 2 := by
        rw [div_lt_iff₀ hden]; linarith
      linarith
  · intro X hr hc hl
    obtain ⟨R, hR⟩ := Int.eq_ofNat_of_zero_le hr
    obtain ⟨C, hC⟩ := Int.eq_ofNat_of_zero_le hc
    have hl' : X.a.length = R * C := by
      rw [hR, hC] at hl; exact_mod_cast hl
    obtain ⟨Y, hY, hrep⟩ := bipolarSigmoid_rep Real.exp (Rep.of_shape hR hC hl')
    refine ⟨Y, hY, ?_, ?_, ?_, ?_⟩
    · rw [hrep.1, hR]
    · rw [hrep.2.1, hC]
    · rw [hrep.2.2.1, hl']
    · intro i j hi hj
      rw [hR] at hi
      rw [hC] at hj
      rw [hrep.get_ok (by exact_mod_cast hi) (by exact_mod_cast hj)]
      rfl

/-- Witness for C11: a `1 x 2` matrix of reals. -/
theorem bipolarSigmoid_tanh_witness :
    ∃ Y, bipolarSigmoid Real.exp (⟨1, 2, [0, 1]⟩ : Matrix ℝ) = .ok Y ∧ Y.r = 1 ∧ Y.c = 2 :=
  (bipolarSigmoid_tanh.2 (⟨1, 2, [0, 1]⟩ : Matrix ℝ) (by decide) (by decide) rfl).imp
    (fun _ h => ⟨h.1, h.2.1, h.2.2.1⟩)

section claims_access
variable [LinearOrderedField α]

/-- Claim C12, amended. Matrix element access is not bounds-checked: `M(i, j)` reads
`a[i * c + j]`. For a matrix with `r` rows and `c` columns (`r * c` elements) and `(i, j)` in
`[0, r) x [0, c)` it returns the stored element; for every `(i, j)`, inside these ranges or not,
whose flat index `i * c + j` lies in `[0, a.size())` it returns the element at that flat index
and does not fail. -/
theorem access_unchecked (M : Matrix α) :
    (0 ≤ M.r → 0 ≤ M.c → (M.a.length : Int) = M.r * M.c →
      ∀ i j : Nat, (i : Int) < M.r → (j : Int) < M.c →
        M.get (i : Int) (j : Int) = .ok (M.entry i j)) ∧
    (∀ i j : Int, 0 ≤ i * M.c + j → i * M.c + j < M.a.length →
      ∃ x, M.a[(i * M.c + j).toNat]? = some x ∧ M.get i j = .ok x) := by
  constructor
  · intro hr hc hl i j hi hj
    obtain ⟨R, hR⟩ := Int.eq_ofNat_of_zero_le hr
    obtain ⟨C, hC⟩ := Int.eq_ofNat_of_zero_le hc
    have hl' : M.a.length = R * C := by
      rw [hR, hC] at hl; exact_mod_cast hl
    rw [hR] at hi
    rw [hC] at hj
    exact (Rep.of_shape hR hC hl').get_ok (by exact_mod_cast hi) (by exact_mod_cast hj)
  · intro i j h0 h1
    have hlt : (i * M.c + j).toNat < M.a.length := by omega
    refine ⟨M.a[(i * M.c + j).toNat], List.getElem?_eq_getElem hlt, ?_⟩
    unfold Matrix.get vecGet
    rw [if_pos h0, List.getElem?_eq_getElem hlt]

end claims_access

/-- Counterexample to C12 as stated: in a `2 x 2` matrix the access `M(0, 2)`, whose column is
outside `[0, 2)`, does not fail and returns the element stored for `(1, 0)`; so does `M(1, -1)`,
which returns the element stored for `(0, 1)`. -/
theorem access_unchecked_counterexample :
    ¬ ((2 : Int) < 2) ∧
    Matrix.get (⟨2, 2, [1, 2, 3, 4]⟩ : Matrix ℚ) 0 2 = .ok 3 ∧
    Matrix.get (⟨2, 2, [1, 2, 3, 4]⟩ : Matrix ℚ) 1 0 = .ok 3 ∧
    Matrix.get (⟨2, 2, [1, 2, 3, 4]⟩ : Matrix ℚ) 1 (-1) = .ok 2 := by
  refine ⟨by decide, by decide!, by decide!, by decide!⟩

/-- Witness for C12: the element `(1, 0)` of a `2 x 2` matrix. -/
theorem access_unchecked_witness :
    Matrix.get (⟨2, 2, [1, 2, 3, 4]⟩ : Matrix ℚ) ((1 : Nat) : Int) ((0 : Nat) : Int)
      = .ok (Matrix.entry (⟨2, 2, [1, 2, 3, 4]⟩ : Matrix ℚ) 1 0) :=
  (access_unchecked (⟨2, 2, [1, 2, 3, 4]⟩ : Matrix ℚ)).1 (by decide) (by decide) rfl 1 0
    (by decide) (by decide)

/-! ## Tabular loading -/

theorem forLoop_unit_ok (n : Nat) (body : Nat → Unit → Except Err Unit)
    (h : ∀ i, i < n → body i () = .ok ()) : forLoop n body () = .ok () := by
  induction n with
  | zero => rfl
  | succ k ih =>
    rw [forLoop_succ, ih (fun i hi => h i (by omega))]
    exact h k (by omega)

theorem forLoop_unit_fail (n : Nat) (body : Nat → Unit → Except Err Unit) (e : Err)
    (hall : ∀ i, i < n → body i () = .ok () ∨ body i () = .error e)
    (hex : ∃ i, i < n ∧ body i () = .error e) : forLoop n body () = .error e := by
  induction n with
  | zero =>
    obtain ⟨i, hi, _⟩ := hex
    exact absurd hi (Nat.not_lt_zero _)
  | succ k ih =>
    rw [forLoop_succ]
    by_cases hk : ∃ i, i < k ∧ body i () = .error e
    · rw [ih (fun i hi => hall i (by omega)) hk]
      rfl
    · have hok : forLoop k body () = .ok () := by
        apply forLoop_unit_ok
        intro i hi
        rcases hall i (by omega) with h1 | h1
        · exact h1
        · exact absurd ⟨i, hi, h1⟩ hk
      rw [hok]
      obtain ⟨i, hi, hie⟩ := hex
      have : i = k := by
        by_contra hne
        exact hk ⟨i, by omega, hie⟩
      subst this
      exact hie

theorem stod_error {t : Tok α} {e : Err} (h : stod t = .error e) : e = .stod := by
  cases t with
  | num x => cases h
  | bad => cases h; rfl

theorem parseRow_error {cells : List (Option (Tok α))} {e : Err}
    (h : parseRow cells = .error e) : e = .stod := by
  induction cells with
  | nil => cases h
  | cons c cs ih =>
    cases c with
    | none => exact ih h
    | some t =>
      unfold parseRow at h
      rcases bind_eq_error h with h1 | ⟨x, _, h2⟩
      · exact stod_error h1
      · rcases bind_eq_error h2 with h3 | ⟨row, _, h4⟩
        · exact ih h3
        · cases h4

theorem parseRows_error {lines : List (List (Option (Tok α)))} {e : Err}
    (h : parseRows lines = .error e) : e = .stod := by
  induction lines with
  | nil => cases h
  | cons l ls ih =>
    unfold parseRows at h
    rcases bind_eq_error h with h1 | ⟨row, _, h2⟩
    · exact parseRow_error h1
    · rcases bind_eq_error h2 with h3 | ⟨rows, _, h4⟩
      · exact ih h3
      · cases h4

section csvproofs
variable [LinearOrderedField α]

/-- The three outcomes of `readCsvMatrix` on a file whose retained cells all parse. -/
theorem readCsvMatrix_cases (path : String) (lines : List (List (Option (Tok α))))
    (rows : List (List α)) (hrows : parseRows lines = .ok rows) :
    (rows = [] → readCsvMatrix path (some lines) = .error (.noData path)) ∧
    (∀ row0 rest, rows = row0 :: rest →
      ((∃ row, row ∈ rest ∧ row.length ≠ row0.length) →
        readCsvMatrix path (some lines) = .error (.colMismatch path)) ∧
      ((∀ row, row ∈ rest → row.length = row0.length) →
        ∃ M, readCsvMatrix path (some lines) = .ok M ∧
          Rep rows.length row0.length M (fun i j => (rows.getD i []).getD j 0))) := by
  refine ⟨fun h0 => ?_, fun row0 rest hcons => ?_⟩
  · subst h0
    simp [readCsvMatrix, hrows, bind, Except.bind]
  · subst hcons
    have hr1 : (((row0 :: rest).length : Int) - 1).toNat = rest.length := by
      simp
    have hget0 : vecGet (row0 :: rest) 0 = .ok row0 := by
      have := vecGet_natCast (row0 :: rest) 0 row0 (by simp)
      simpa using this
    have hbody : ∀ i, i < rest.length →
        (do
          let rowi ← vecGet (row0 :: rest) ((i : Int) + 1)
          if (rowi.length : Int) ≠ (row0.length : Int) then
            (.error (.colMismatch path) : Except Err Unit) else pure ()) =
        if (rest.getD i []).length ≠ row0.length then .error (.colMismatch path) else .ok () := by
      intro i hi
      have e : ((i : Int) + 1) = ((i + 1 : Nat) : Int) := by push_cast; ring
      have hg : (row0 :: rest)[i + 1]? = some (rest.getD i []) := by
        simp [List.getD_eq_getElem?_getD, List.getElem?_eq_getElem hi]
      rw [e, vecGet_natCast _ _ _ hg]
      simp only [bind, Except.bind]
      by_cases hlen : (rest.getD i []).length = row0.length
      · have : ¬ (((rest.getD i []).length : Int) ≠ (row0.length : Int)) := by
          rw [hlen]; simp
        rw [if_neg this, if_neg (not_not.mpr hlen)]
        rfl
      · have : ((rest.getD i []).length : Int) ≠ (row0.length : Int) := by exact_mod_cast hlen
        rw [if_pos this, if_pos hlen]
    have hpre : readCsvMatrix path (some (lines)) =
        (forLoop rest.length (fun i (_ : Unit) => do
          let rowi ← vecGet (row0 :: rest) ((i : Int) + 1)
          if (rowi.length : Int) ≠ (row0.length : Int) then
            (.error (.colMismatch path) : Except Err Unit) else pure ()) () >>= fun _ =>
          Matrix.new ((row0 :: rest).length : Int) (row0.length : Int) (0 : α) >>= fun M =>
          forLoop ((row0 :: rest).length : Int).toNat (fun i M =>
            forLoop (row0.length : Int).toNat (fun j M => do
              let rowi ← vecGet (row0 :: rest) i
              let x ← vecGet rowi j
              M.set i j x) M) M) := by
      unfold readCsvMatrix
      simp only [hrows, bind, Except.bind, List.isEmpty_cons, Bool.false_eq_true, ↓reduceIte,
        hget0, hr1]
    constructor
    · intro hex
      obtain ⟨row, hmem, hne⟩ := hex
      obtain ⟨i, hi, hrow⟩ := List.getElem_of_mem hmem
      have hfail := forLoop_unit_fail rest.length
        (fun i (_ : Unit) => do
          let rowi ← vecGet (row0 :: rest) ((i : Int) + 1)
          if (rowi.length : Int) ≠ (row0.length : Int) then
            (.error (.colMismatch path) : Except Err Unit) else pure ()) (.colMismatch path)
        (by
          intro k hk
          show _ ∨ _
          simp only []
          rw [hbody k hk]
          by_cases hlen : (rest.getD k []).length = row0.length
          · left; rw [if_neg (not_not.mpr hlen)]
          · right; rw [if_pos hlen])
        ⟨i, hi, by
          simp only []
          rw [hbody i hi]
          have : rest.getD i [] = row := by
            simp [List.getD_eq_getElem?_getD, List.getElem?_eq_getElem hi, hrow]
          rw [this, if_pos hne]⟩
      rw [hpre, hfail]
      rfl
    · intro hall
      have hok := forLoop_unit_ok rest.length
        (fun i (_ : Unit) => do
          let rowi ← vecGet (row0 :: rest) ((i : Int) + 1)
          if (rowi.length : Int) ≠ (row0.length : Int) then
            (.error (.colMismatch path) : Except Err Unit) else pure ())
        (by
          intro k hk
          simp only []
          rw [hbody k hk]
          have : (rest.getD k []).length = row0.length := by
            apply hall
            simp [List.getD_eq_getElem?_getD, List.getElem?_eq_getElem hk]
          rw [if_neg (not_not.mpr this)])
      obtain ⟨M0, hM0, hrep0⟩ := Rep.new_ok (row0 :: rest).length row0.length (0 : α)
      have hall' : ∀ i, i < (row0 :: rest).length →
          ((row0 :: rest).getD i []).length = row0.length := by
        intro i hi
        cases i with
        | zero => rfl
        | succ k =>
          apply hall
          have hk : k < rest.length := by simpa using hi
          simp [List.getD_eq_getElem?_getD, List.getElem?_eq_getElem hk]
      obtain ⟨M, hM, hrep⟩ := forLoop2_fill
        (fun (M : Matrix α) v => Rep (row0 :: rest).length row0.length M v)
        (row0 :: rest).length row0.length
        (fun s v v' hv hvv => hv.congr hvv)
        (fun i j M => do
          let rowi ← vecGet (row0 :: rest) i
          let x ← vecGet rowi j
          M.set i j x)
        (fun _ _ => 0) (fun i j => ((row0 :: rest).getD i []).getD j 0)
        (by
          intro i j M v hi hj hv _
          obtain ⟨M', hM', hrep'⟩ := hv.set_ok hi hj (((row0 :: rest).getD i []).getD j 0)
          refine ⟨M', ?_, hrep'⟩
          have h1 : (row0 :: rest)[i]? = some ((row0 :: rest).getD i []) := by
            rw [List.getD_eq_getElem?_getD, List.getElem?_eq_getElem hi]
            rfl
          have hj' : j < ((row0 :: rest).getD i []).length := by rw [hall' i hi]; exact hj
          have h2 : ((row0 :: rest).getD i [])[j]? =
              some (((row0 :: rest).getD i []).getD j 0) := by
            generalize (row0 :: rest).getD i [] = ri at hj'
            rw [List.getD_eq_getElem?_getD, List.getElem?_eq_getElem hj']
            rfl
          show (vecGet (row0 :: rest) (i : Int) >>= fun rowi =>
            vecGet rowi (j : Int) >>= fun x => M.set i j x) = _
          rw [vecGet_natCast _ _ _ h1]
          show (vecGet ((row0 :: rest).getD i []) (j : Int) >>= fun x => M.set i j x) = _
          rw [vecGet_natCast _ _ _ h2]
          exact hM')
        M0 hrep0
      refine ⟨M, ?_, hrep⟩
      rw [hpre, hok]
      simp only [bind, Except.bind, hM0, Int.toNat_ofNat]
      exact hM

end csvproofs

theorem extractNums_nums_append (pre : List α) (toks : List (Tok α)) :
    extractNums (pre.map Tok.num ++ toks) = pre ++ extractNums toks := by
  induction pre with
  | nil => rfl
  | cons x xs ih =>
    show extractNums (Tok.num x :: (xs.map Tok.num ++ toks)) = _
    rw [extractNums, ih]
    rfl


section csvproofs2
variable [LinearOrderedField α]

end csvproofs2

/-! ## The character-level parsers -/

theorem skipSpace_length_le (cs : List Char) : (skipSpace cs).length ≤ cs.length := by
  induction cs with
  | nil => exact Nat.le_refl _
  | cons c cs ih =>
    unfold skipSpace
    split
    · exact Nat.le_succ_of_le ih
    · exact Nat.le_refl _

theorem scanFloat_length (cs : List Char) : ∀ sg fm fd fs : Bool,
    (scanFloat sg fm fd fs cs).1.length + (scanFloat sg fm fd fs cs).2.length = cs.length := by
  induction cs with
  | nil => intro sg fm fd fs; rfl
  | cons c cs ih =>
    intro sg fm fd fs
    unfold scanFloat
    split
    · have := ih false fm fd fs
      simp only [List.length_cons]
      omega
    · split
      · have := ih false true fd fs
        simp only [List.length_cons]
        omega
      · split
        · have := ih false fm true fs
          simp only [List.length_cons]
          omega
        · split
          · have := ih true fm fd true
            simp only [List.length_cons]
            omega
          · simp

section textproofs
variable [LinearOrderedField α]

theorem strtodDec_nil : (strtodDec [] : Option (α × List Char)) = none := rfl

theorem streamRead_length {cs : List Char} {v : α} {rest : List Char}
    (h : streamRead cs = some (v, rest)) : rest.length < cs.length := by
  unfold streamRead at h
  have h1 := scanFloat_length (skipSpace cs) true false false false
  have h2 := skipSpace_length_le cs
  generalize scanFloat true false false false (skipSpace cs) = p at h h1
  simp only at h
  split at h
  · rename_i v1 heq
    have hne : p.1 ≠ [] := by
      intro h0
      rw [h0, strtodDec_nil] at heq
      cases heq
    have hpos : 0 < p.1.length := List.length_pos.mpr hne
    cases h
    omega
  · cases h

/-- Fuel at least the length of the text lists all the reads of the loop: more fuel changes
nothing. -/
theorem lexStream_fuel : ∀ (n m : Nat) (cs : List Char), cs.length ≤ n → cs.length ≤ m →
    (lexStream n cs : List (Tok α)) = lexStream m cs := by
  intro n
  induction n with
  | zero =>
    intro m cs hn _
    have : cs = [] := List.length_eq_zero.mp (Nat.le_zero.mp hn)
    subst this
    cases m with
    | zero => rfl
    | succ m => rfl
  | succ n ih =>
    intro m cs hn hm
    cases m with
    | zero =>
      have : cs = [] := List.length_eq_zero.mp (Nat.le_zero.mp hm)
      subst this
      rfl
    | succ m =>
      unfold lexStream
      cases hs : (streamRead cs : Option (α × List Char)) with
      | none => rfl
      | some p =>
        obtain ⟨v, rest⟩ := p
        have hl := streamRead_length hs
        simp only
        rw [ih m rest (by omega) (by omega)]

end textproofs

/-! ## Claims C13, C14 and C19: the loaders -/

section claims_loaders
variable [LinearOrderedField α]

/-- Claim C13, amended. Tabular loading rejects ragged input: for every list of parsed rows
(all retained cells parse, empty rows are dropped) in which two rows differ in column count,
`readCsvMatrix` fails with the column-mismatch error, which names the file path and not the index
of the offending row, and returns no matrix. -/
theorem readCsvMatrix_ragged (path : String) (lines : List (List (Option (Tok α))))
    (rows : List (List α)) (hrows : parseRows lines = .ok rows)
    (hrag : ∃ row1 row2, row1 ∈ rows ∧ row2 ∈ rows ∧ row1.length ≠ row2.length) :
    readCsvMatrix path (some lines) = .error (.colMismatch path) ∧
      ∀ M, readCsvMatrix path (some lines) ≠ .ok M := by
  have hfail : readCsvMatrix path (some lines) = .error (.colMismatch path) := by
    obtain ⟨row1, row2, h1, h2, hne⟩ := hrag
    cases rows with
    | nil => cases h1
    | cons row0 rest =>
      apply ((readCsvMatrix_cases path lines _ hrows).2 row0 rest rfl).1
      by_cases e1 : row1.length = row0.length
      · have e2 : row2.length ≠ row0.length := fun h => hne (e1.trans h.symm)
        rcases List.mem_cons.mp h2 with h | h
        · rw [h] at e2
          exact absurd rfl e2
        · exact ⟨row2, h, e2⟩
      · rcases List.mem_cons.mp h1 with h | h
        · rw [h] at e1
          exact absurd rfl e1
        · exact ⟨row1, h, e1⟩
  refine ⟨hfail, fun M hM => ?_⟩
  rw [hfail] at hM
  cases hM

/-- Claim C19. Tabular loading succeeds exactly on rectangular data. Given the rows that remain
after skipping blank lines and blank cells, `readCsvMatrix` fails with the no-data error iff no
row remains, fails with the column-mismatch error iff some remaining row differs in length from
the first row, and otherwise returns a matrix with `r` the number of remaining rows, `c` the
length of the first row and `M(i, j)` the `j`-th retained cell of the `i`-th retained row. -/
theorem tabular_loading (path : String) (lines : List (List (Option (Tok α))))
    (rows : List (List α)) (hrows : parseRows lines = .ok rows) :
    (readCsvMatrix path (some lines) = .error (.noData path) ↔ rows = []) ∧
    (readCsvMatrix path (some lines) = .error (.colMismatch path) ↔
      ∃ row, row ∈ rows ∧ row.length ≠ (rows.headD []).length) ∧
    (rows ≠ [] → (∀ row, row ∈ rows → row.length = (rows.headD []).length) →
      ∃ M, readCsvMatrix path (some lines) = .ok M ∧ M.r = (rows.length : Int) ∧
        M.c = ((rows.headD []).length : Int) ∧ M.a.length = rows.length * (rows.headD []).length ∧
        ∀ i j : Nat, i < rows.length → j < (rows.headD []).length →
          M.get (i : Int) (j : Int) = .ok ((rows.getD i []).getD j 0)) := by
  obtain ⟨hnil, hcons⟩ := readCsvMatrix_cases path lines rows hrows
  cases rows with
  | nil =>
    refine ⟨⟨fun _ => rfl, fun _ => hnil rfl⟩, ⟨fun h => ?_, fun h => ?_⟩, fun h => absurd rfl h⟩
    · rw [hnil rfl] at h
      cases h
    · obtain ⟨row, hmem, _⟩ := h
      cases hmem
  | cons row0 rest =>
    obtain ⟨hbad, hgood⟩ := hcons row0 rest rfl
    have hsplit : (∃ row, row ∈ rest ∧ row.length ≠ row0.length) ∨
        (∀ row, row ∈ rest → row.length = row0.length) := by
      by_cases h : ∃ row, row ∈ rest ∧ row.length ≠ row0.length
      · exact Or.inl h
      · right
        intro row hmem
        by_contra hne
        exact h ⟨row, hmem, hne⟩
    have hiff : (∃ row, row ∈ row0 :: rest ∧ row.length ≠ row0.length) ↔
        ∃ row, row ∈ rest ∧ row.length ≠ row0.length := by
      constructor
      · rintro ⟨row, hmem, hne⟩
        rcases List.mem_cons.mp hmem with h | h
        · rw [h] at hne
          exact absurd rfl hne
        · exact ⟨row, h, hne⟩
      · rintro ⟨row, hmem, hne⟩
        exact ⟨row, List.mem_cons_of_mem _ hmem, hne⟩
    refine ⟨⟨fun h => ?_, fun h => by cases h⟩, ⟨fun h => ?_, fun h => ?_⟩, fun _ hall => ?_⟩
    · rcases hsplit with h1 | h1
      · rw [hbad h1] at h
        cases h
      · obtain ⟨M, hM, _⟩ := hgood h1
        rw [hM] at h
        cases h
    · show ∃ row, row ∈ row0 :: rest ∧ row.length ≠ row0.length
      rw [hiff]
      rcases hsplit with h1 | h1
      · exact h1
      · obtain ⟨M, hM, _⟩ := hgood h1
        rw [hM] at h
        cases h
    · exact hbad (hiff.mp h)
    · obtain ⟨M, hM, hrep⟩ := hgood (fun row hmem => hall row (List.mem_cons_of_mem _ hmem))
      exact ⟨M, hM, hrep.1, hrep.2.1, hrep.2.2.1, fun i j hi hj => hrep.get_ok hi hj⟩

end claims_loaders

/-- Counterexample to C13 as stated: a file whose offending row has index `1` and a file whose
offending row has index `2` fail with the same error, which carries the path only. -/
theorem colMismatch_row_counterexample :
    readCsvMatrix "m.csv" (some [[some (Tok.num (1 : ℚ)), some (.num 2)], [some (.num 3)],
      [some (.num 4), some (.num 5)]]) = .error (.colMismatch "m.csv") ∧
    readCsvMatrix "m.csv" (some [[some (Tok.num (1 : ℚ)), some (.num 2)],
      [some (.num 3), some (.num 4)], [some (.num 5)]]) = .error (.colMismatch "m.csv") := by
  refine ⟨by decide!, by decide!⟩

/-- Witness for C13: three rows of two, one and two cells. -/
theorem readCsvMatrix_ragged_witness :
    parseRows [[some (Tok.num (1 : ℚ)), some (.num 2)], [some (.num 3)],
      [some (.num 4), some (.num 5)]] = .ok [[1, 2], [3], [4, 5]] ∧
    readCsvMatrix "m.csv" (some [[some (Tok.num (1 : ℚ)), some (.num 2)], [some (.num 3)],
      [some (.num 4), some (.num 5)]]) = .error (.colMismatch "m.csv") :=
  ⟨by decide!, (readCsvMatrix_ragged "m.csv" [[some (Tok.num (1 : ℚ)), some (.num 2)],
    [some (.num 3)], [some (.num 4), some (.num 5)]] [[1, 2], [3], [4, 5]] (by decide!)
    ⟨[1, 2], [3], by simp, by simp, by decide⟩).1⟩

/-- Witness for C19: a file with a blank line and a blank cell, loaded as a `2 x 2` matrix. -/
theorem tabular_loading_witness :
    parseRows [[some (Tok.num (1 : ℚ)), none, some (.num 2)], [],
      [some (.num 3), some (.num 4)]] = .ok [[1, 2], [3, 4]] ∧
    ∃ M, readCsvMatrix "m.csv" (some [[some (Tok.num (1 : ℚ)), none, some (.num 2)], [],
      [some (.num 3), some (.num 4)]]) = .ok M ∧ M.r = 2 ∧ M.c = 2 :=
  ⟨by decide!, ((tabular_loading "m.csv" [[some (Tok.num (1 : ℚ)), none, some (.num 2)], [],
    [some (.num 3), some (.num 4)]] [[1, 2], [3, 4]] (by decide!)).2.2 (by simp)
    (by simp)).imp (fun _ h => ⟨h.1, h.2.1, h.2.2.1⟩)⟩

/-! ## Claim C20: the length invariant -/

section claims_length
variable [LinearOrderedField α]

end claims_length

/-- A loop that writes `g1 (l[i])` and `g2 (l[i])` at index `i` of two vectors of the length of
`l` yields the two mapped lists. -/
theorem forLoop_map2 (l : List α) (g1 g2 : α → α) (v1 v2 : List α)
    (h1 : v1.length = l.length) (h2 : v2.length = l.length) :
    forLoop l.length (fun i (p : List α × List α) => do
      let o ← vecGet l i
      let a ← vecSet p.1 i (g1 o)
      let o ← vecGet l i
      let b ← vecSet p.2 i (g2 o)
      pure (a, b)) (v1, v2) = .ok (l.map g1, l.map g2) := by
  obtain ⟨p, hp, hl1, hl2, hval⟩ := forLoop_inv
    (fun i (p : List α × List α) => p.1.length = l.length ∧ p.2.length = l.length ∧
      ∀ k, k < i → p.1[k]? = (l.map g1)[k]? ∧ p.2[k]? = (l.map g2)[k]?) l.length
    (fun i (p : List α × List α) => do
      let o ← vecGet l i
      let a ← vecSet p.1 i (g1 o)
      let o ← vecGet l i
      let b ← vecSet p.2 i (g2 o)
      pure (a, b)) (v1, v2)
    ⟨h1, h2, fun k hk => absurd hk (Nat.not_lt_zero _)⟩
    (by
      intro i p hi ⟨e1, e2, hv⟩
      have hg : l[i]? = some l[i] := List.getElem?_eq_getElem hi
      refine ⟨(p.1.set i (g1 l[i]), p.2.set i (g2 l[i])), ?_, by simp [e1], by simp [e2], ?_⟩
      · simp only [bind, Except.bind, vecGet_natCast _ _ _ hg,
          vecSet_natCast _ _ _ (e1 ▸ hi), vecSet_natCast _ _ _ (e2 ▸ hi)]
        rfl
      · intro k hk
        by_cases e : k = i
        · subst e
          simp [List.getElem?_set, e1, e2, hi, List.getElem?_eq_getElem hi]
        · have hne : i ≠ k := fun h => e h.symm
          have := hv k (by omega)
          simp only [List.getElem?_set, hne, ↓reduceIte]
          exact this)
  rw [hp]
  have q1 : p.1 = l.map g1 := by
    apply List.ext_getElem?
    intro k
    by_cases hk : k < l.length
    · exact (hval k hk).1
    · rw [List.getElem?_eq_none (by omega), List.getElem?_eq_none (by simp; omega)]
  have q2 : p.2 = l.map g2 := by
    apply List.ext_getElem?
    intro k
    by_cases hk : k < l.length
    · exact (hval k hk).2
    · rw [List.getElem?_eq_none (by omega), List.getElem?_eq_none (by simp; omega)]
  rw [← q1, ← q2]

section claims_rescale
variable [LinearOrderedField α]

theorem foldl_max_spec (xs : List α) (a : α) :
    (xs.foldl (fun largest y => if largest < y then y else largest) a = a ∨
      xs.foldl (fun largest y => if largest < y then y else largest) a ∈ xs) ∧
    a ≤ xs.foldl (fun largest y => if largest < y then y else largest) a ∧
    ∀ y, y ∈ xs → y ≤ xs.foldl (fun largest y => if largest < y then y else largest) a := by
  induction xs generalizing a with
  | nil => exact ⟨Or.inl rfl, le_refl _, fun y hy => by cases hy⟩
  | cons x xs ih =>
    simp only [List.foldl_cons]
    obtain ⟨h1, h2, h3⟩ := ih (if a < x then x else a)
    have hax : a ≤ (if a < x then x else a) ∧ x ≤ (if a < x then x else a) := by
      by_cases h : a < x
      · rw [if_pos h]; exact ⟨h.le, le_refl _⟩
      · rw [if_neg h]; exact ⟨le_refl _, not_lt.mp h⟩
    refine ⟨?_, le_trans hax.1 h2, ?_⟩
    · rcases h1 with h1 | h1
      · by_cases h : a < x
        · right
          rw [h1, if_pos h]
          exact List.mem_cons_self _ _
        · left
          rw [h1, if_neg h]
      · right
        exact List.mem_cons_of_mem _ h1
    · intro y hy
      rcases List.mem_cons.mp hy with h | h
      · rw [h]; exact le_trans hax.2 h2
      · exact h3 y h

theorem foldl_min_spec (xs : List α) (a : α) :
    (xs.foldl (fun smallest y => if y < smallest then y else smallest) a = a ∨
      xs.foldl (fun smallest y => if y < smallest then y else smallest) a ∈ xs) ∧
    xs.foldl (fun smallest y => if y < smallest then y else smallest) a ≤ a ∧
    ∀ y, y ∈ xs → xs.foldl (fun smallest y => if y < smallest then y else smallest) a ≤ y := by
  induction xs generalizing a with
  | nil => exact ⟨Or.inl rfl, le_refl _, fun y hy => by cases hy⟩
  | cons x xs ih =>
    simp only [List.foldl_cons]
    obtain ⟨h1, h2, h3⟩ := ih (if x < a then x else a)
    have hax : (if x < a then x else a) ≤ a ∧ (if x < a then x else a) ≤ x := by
      by_cases h : x < a
      · rw [if_pos h]; exact ⟨h.le, le_refl _⟩
      · rw [if_neg h]; exact ⟨le_refl _, not_lt.mp h⟩
    refine ⟨?_, le_trans h2 hax.1, ?_⟩
    · rcases h1 with h1 | h1
      · by_cases h : x < a
        · right
          rw [h1, if_pos h]
          exact List.mem_cons_self _ _
        · left
          rw [h1, if_neg h]
      · right
        exact List.mem_cons_of_mem _ h1
    · intro y hy
      rcases List.mem_cons.mp hy with h | h
      · rw [h]; exact le_trans h2 hax.2
      · exact h3 y h

theorem maxElement_spec {l : List α} (hne : l ≠ []) :
    ∃ m, maxElement l = .ok m ∧ m ∈ l ∧ ∀ y, y ∈ l → y ≤ m := by
  cases l with
  | nil => exact absurd rfl hne
  | cons x xs =>
    obtain ⟨h1, h2, h3⟩ := foldl_max_spec xs x
    refine ⟨_, rfl, ?_, ?_⟩
    · rcases h1 with h1 | h1
      · rw [h1]; exact List.mem_cons_self _ _
      · exact List.mem_cons_of_mem _ h1
    · intro y hy
      rcases List.mem_cons.mp hy with h | h
      · rw [h]; exact h2
      · exact h3 y h

theorem minElement_spec {l : List α} (hne : l ≠ []) :
    ∃ m, minElement l = .ok m ∧ m ∈ l ∧ ∀ y, y ∈ l → m ≤ y := by
  cases l with
  | nil => exact absurd rfl hne
  | cons x xs =>
    obtain ⟨h1, h2, h3⟩ := foldl_min_spec xs x
    refine ⟨_, rfl, ?_, ?_⟩
    · rcases h1 with h1 | h1
      · rw [h1]; exact List.mem_cons_self _ _
      · exact List.mem_cons_of_mem _ h1
    · intro y hy
      rcases List.mem_cons.mp hy with h | h
      · rw [h]; exact h2
      · exact h3 y h

theorem rescaleCsv_ok (O_raw : List α) (maxO minO : α) (hmax : maxElement O_raw = .ok maxO)
    (hmin : minElement O_raw = .ok minO) :
    rescaleCsv (O_raw.length : Int) O_raw =
      .ok (O_raw.map (fun o => normalize_bipolar o minO maxO),
        O_raw.map (fun o => (((o + 1) / 2 * (maxO - minO) + minO) + 0.7) * 100)) := by
  unfold rescaleCsv
  simp only [hmax, hmin, vecNew_natCast, bind, Except.bind, Int.toNat_ofNat]
  exact forLoop_map2 O_raw (fun o => normalize_bipolar o minO maxO)
    (fun o => (((o + 1) / 2 * (maxO - minO) + minO) + 0.7) * 100) _ _ (by simp) (by simp)

end claims_rescale

section claims_rescale2
variable [LinearOrderedField α]

theorem normalize_bipolar_wide_facts (o mn mx : α) (h : 1e-12 ≤ mx - mn) (h1 : mn ≤ o)
    (h2 : o ≤ mx) :
    (o = mn → normalize_bipolar o mn mx = -1) ∧ (o = mx → normalize_bipolar o mn mx = 1) ∧
      -1 ≤ normalize_bipolar o mn mx ∧ normalize_bipolar o mn mx ≤ 1 := by
  have hpos : 0 < mx - mn := lt_of_lt_of_le eps_pos h
  have habs : (1e-12 : α) ≤ |mx - mn| := le_trans h (le_abs_self _)
  have hne : mx - mn ≠ 0 := ne_of_gt hpos
  rw [normalize_bipolar_of_wide _ _ _ habs]
  have h0 : 0 ≤ (o - mn) / (mx - mn) := div_nonneg (sub_nonneg.mpr h1) hpos.le
  have h3 : (o - mn) / (mx - mn) ≤ 1 := by
    rw [div_le_one hpos]
    linarith
  rw [mul_div_assoc]
  refine ⟨fun e => ?_, fun e => ?_, by linarith, by linarith⟩
  · rw [e, sub_self, zero_div]
    norm_num
  · rw [e, div_self hne]
    norm_num

/-- Claim C16. Single-output rescale in the CSV pipeline: for every non-empty series of raw
predictions `O_raw`, `max_O` and `min_O` are its largest and smallest values, the rescale
succeeds, `Y_cm[i] = (((O_raw[i] + 1) / 2 * (max_O - min_O) + min_O) + 0.7) * 100` for every
sample `i`, and when `max_O - min_O >= 1e-12`, `new_O[i] = -1` at every sample where
`O_raw[i] = min_O`, `new_O[i] = 1` at every sample where `O_raw[i] = max_O`, and every
`new_O[i]` lies in `[-1, 1]`. -/
theorem rescale_single_output (O_raw : List α) (hne : O_raw ≠ []) :
    ∃ maxO minO, maxElement O_raw = .ok maxO ∧ minElement O_raw = .ok minO ∧
      maxO ∈ O_raw ∧ minO ∈ O_raw ∧ (∀ o, o ∈ O_raw → minO ≤ o ∧ o ≤ maxO) ∧
      ∃ new_O Y_cm, rescaleCsv (O_raw.length : Int) O_raw = .ok (new_O, Y_cm) ∧
        new_O.length = O_raw.length ∧ Y_cm.length = O_raw.length ∧
        ∀ i, i < O_raw.length →
          ∃ o n y, O_raw[i]? = some o ∧ new_O[i]? = some n ∧ Y_cm[i]? = some y ∧
            y = (((o + 1) / 2 * (maxO - minO) + minO) + 0.7) * 100 ∧
            (1e-12 ≤ maxO - minO →
              (o = minO → n = -1) ∧ (o = maxO → n = 1) ∧ -1 ≤ n ∧ n ≤ 1) := by
  obtain ⟨maxO, hmax, hmaxmem, hmaxle⟩ := maxElement_spec hne
  obtain ⟨minO, hmin, hminmem, hminle⟩ := minElement_spec hne
  refine ⟨maxO, minO, hmax, hmin, hmaxmem, hminmem, fun o ho => ⟨hminle o ho, hmaxle o ho⟩,
    _, _, rescaleCsv_ok O_raw maxO minO hmax hmin, by simp, by simp, ?_⟩
  intro i hi
  have ho : O_raw[i] ∈ O_raw := List.getElem_mem hi
  refine ⟨O_raw[i], normalize_bipolar O_raw[i] minO maxO,
    (((O_raw[i] + 1) / 2 * (maxO - minO) + minO) + 0.7) * 100,
    List.getElem?_eq_getElem hi, by simp [List.getElem?_eq_getElem hi],
    by simp [List.getElem?_eq_getElem hi], rfl, fun hw => ?_⟩
  exact normalize_bipolar_wide_facts _ _ _ hw (hminle _ ho) (hmaxle _ ho)

end claims_rescale2

/-- Witness for C16: five raw predictions over the rationals. -/
theorem rescale_single_output_witness :
    ∃ maxO minO, maxElement ([3, 1, 4, 1, 5] : List ℚ) = .ok maxO ∧
      minElement ([3, 1, 4, 1, 5] : List ℚ) = .ok minO ∧ maxO ∈ ([3, 1, 4, 1, 5] : List ℚ) ∧
      minO ∈ ([3, 1, 4, 1, 5] : List ℚ) :=
  (rescale_single_output ([3, 1, 4, 1, 5] : List ℚ) (by simp)).imp
    (fun _ h => h.imp (fun _ h => ⟨h.1, h.2.1, h.2.2.1, h.2.2.2.1⟩))

/-! ## Claim C15: the export -/

theorem collect_list {β : Type} (l : List β) (item : Nat → Except Err β)
    (h : ∀ i (hi : i < l.length), item i = .ok l[i]) : collect l.length item = .ok l := by
  obtain ⟨out, hout, hP⟩ := forLoop_inv (fun i (out : List β) => out = l.take i) l.length
    (fun i out => do
      let x ← item i
      pure (out ++ [x])) [] (by simp)
    (by
      intro i out hi hP
      refine ⟨out ++ [l[i]], ?_, ?_⟩
      · simp only [h i hi, bind, Except.bind]
        rfl
      · show out ++ [l[i]] = List.take (i + 1) l
        rw [hP, List.take_succ, List.getElem?_eq_getElem hi]
        rfl)
  unfold collect
  rw [hout, hP, List.take_length]

theorem collect_range {β : Type} (n : Nat) (item : Nat → Except Err β) (g : Nat → β)
    (h : ∀ i, i < n → item i = .ok (g i)) :
    collect n item = .ok ((List.range n).map g) := by
  have := collect_list ((List.range n).map g) item (by
    intro i hi
    have hi' : i < n := by simpa using hi
    rw [h i hi']
    simp)
  simpa using this

theorem forLoop_fill_list (n : Nat) (f : Nat → Except Err α) (g : Nat → α) (v0 : List α)
    (h0 : v0.length = n) (hf : ∀ i, i < n → f i = .ok (g i)) :
    forLoop n (fun i v => do
      let x ← f i
      vecSet v i x) v0 = .ok ((List.range n).map g) := by
  obtain ⟨v, hv, hl, hval⟩ := forLoop_inv
    (fun i (v : List α) => v.length = n ∧ ∀ k, k < i → v[k]? = some (g k)) n
    (fun i v => do
      let x ← f i
      vecSet v i x) v0 ⟨h0, fun k hk => absurd hk (Nat.not_lt_zero _)⟩
    (by
      intro i v hi ⟨e1, hv⟩
      refine ⟨v.set i (g i), ?_, by simp [e1], ?_⟩
      · simp only [hf i hi, bind, Except.bind, vecSet_natCast _ _ _ (e1 ▸ hi)]
      · intro k hk
        by_cases e : k = i
        · subst e
          simp [List.getElem?_set, e1, hi]
        · have hne : i ≠ k := fun h => e h.symm
          simp only [List.getElem?_set, hne, ↓reduceIte]
          exact hv k (by omega))
  rw [hv]
  congr 1
  apply List.ext_getElem?
  intro k
  by_cases hk : k < n
  · rw [hval k hk]
    simp [List.getElem?_eq_getElem, hk]
  · rw [List.getElem?_eq_none (by omega), List.getElem?_eq_none (by simp; omega)]

theorem saveCsvVector_ok (path : String) (y : List α) :
    saveCsvVector path true y = .ok (.pred y) := by
  unfold saveCsvVector
  have := collect_list y (fun i => vecGet y (i : Int))
    (fun i hi => vecGet_natCast _ _ _ (List.getElem?_eq_getElem hi))
  simp only [this, ↓reduceIte, bind, Except.bind]
  rfl

theorem writePredictionCsv_ok (path : String) (rawO : List α) (g1 g2 : α → α) :
    writePredictionCsv path true rawO (rawO.map g1) (rawO.map g2) =
      .ok (.validate (rawO.map (fun o => (o, g1 o, g2 o)))) := by
  unfold writePredictionCsv
  have := collect_list (rawO.map (fun o => (o, g1 o, g2 o)))
    (fun i => do
      let o ← vecGet rawO (i : Int)
      let n ← vecGet (rawO.map g1) (i : Int)
      let y ← vecGet (rawO.map g2) (i : Int)
      pure (o, n, y))
    (by
      intro i hi
      have hi' : i < rawO.length := by simpa using hi
      have e0 : rawO[i]? = some rawO[i] := List.getElem?_eq_getElem hi'
      have e1 : (rawO.map g1)[i]? = some (g1 rawO[i]) := by simp [e0]
      have e2 : (rawO.map g2)[i]? = some (g2 rawO[i]) := by simp [e0]
      simp only [vecGet_natCast _ _ _ e0, vecGet_natCast _ _ _ e1, vecGet_natCast _ _ _ e2,
        bind, Except.bind]
      simp [pure, Except.pure])
  rw [List.length_map] at this
  rw [if_pos rfl, this]
  rfl

theorem firstRow_ok [LinearOrderedField α] {OUT N : Nat} {Omat : Matrix α}
    {g : Nat → Nat → α} (h : Rep OUT N Omat g) (hOUT : 0 < OUT) :
    firstRow (N : Int) Omat = .ok ((List.range N).map (fun n => g 0 n)) := by
  unfold firstRow
  simp only [vecNew_natCast, bind, Except.bind, Int.toNat_ofNat]
  exact forLoop_fill_list N (fun i => Omat.get 0 (i : Int)) (fun n => g 0 n) _ (by simp)
    (fun i hi => h.get_row0 hOUT hi)

section claims_export
variable [LinearOrderedField α]

theorem exportCsv_ok {OUT N : Nat} {Omat : Matrix α} {g : Nat → Nat → α}
    (h : Rep OUT N Omat g) (hOUT : 0 < OUT) (hN : 0 < N) :
    ∃ maxO minO, maxElement ((List.range N).map (fun n => g 0 n)) = .ok maxO ∧
      minElement ((List.range N).map (fun n => g 0 n)) = .ok minO ∧
      exportCsv true (N : Int) Omat = .ok (.validate (((List.range N).map (fun n => g 0 n)).map
        (fun o => (o, normalize_bipolar o minO maxO,
          (((o + 1) / 2 * (maxO - minO) + minO) + 0.7) * 100)))) := by
  have hne : (List.range N).map (fun n => g 0 n) ≠ [] := by
    intro h0
    have := congrArg List.length h0
    simp at this
    omega
  obtain ⟨maxO, hmax, _, _⟩ := maxElement_spec hne
  obtain ⟨minO, hmin, _, _⟩ := minElement_spec hne
  refine ⟨maxO, minO, hmax, hmin, ?_⟩
  have hres := rescaleCsv_ok _ maxO minO hmax hmin
  have hlen : (((List.range N).map (fun n => g 0 n)).length : Int) = (N : Int) := by simp
  rw [hlen] at hres
  unfold exportCsv
  simp only [firstRow_ok h hOUT, hres, bind, Except.bind]
  exact writePredictionCsv_ok _ _ _ _

theorem exportFixed_ok {OUT N : Nat} {Omat : Matrix α} {g : Nat → Nat → α}
    (h : Rep OUT N Omat g) (hOUT : 0 < OUT) :
    (OUT = 1 → exportFixed true (N : Int) (OUT : Int) Omat =
      .ok (.pred ((List.range N).map (fun n => g 0 n)))) ∧
    (OUT ≠ 1 → exportFixed true (N : Int) (OUT : Int) Omat =
      .ok (.predMatrix ((List.range OUT).map (fun o => (List.range N).map (fun n => g o n))))) := by
  constructor
  · intro h1
    unfold exportFixed
    have : ((OUT : Nat) : Int) = 1 := by exact_mod_cast h1
    rw [if_pos this]
    simp only [firstRow_ok h hOUT, bind, Except.bind]
    exact saveCsvVector_ok _ _
  · intro h1
    unfold exportFixed
    have : ¬ ((OUT : Nat) : Int) = 1 := by exact_mod_cast h1
    rw [if_neg this, if_pos rfl]
    have hrows := collect_range OUT
      (fun o => collect (N : Int).toNat (fun i => Omat.get (o : Int) (i : Int)))
      (fun o => (List.range N).map (fun n => g o n))
      (by
        intro o ho
        simp only [Int.toNat_ofNat]
        exact collect_range N _ _ (fun i hi => h.get_ok ho hi))
    simp only [Int.toNat_ofNat] at hrows ⊢
    rw [hrows]
    rfl

theorem mainFixed_of_forward (exp : α → α) (N F HN : Int) (fs : TxtFiles α) (w : Bool)
    (Omat : Matrix α) (h : forwardFixed exp N F HN fs = .ok Omat) :
    ∃ OUT OW OB, resolveOutput HN fs.ow fs.ob = .ok (OUT, OW, OB) ∧ OUT = Omat.r ∧
      mainFixed exp N F HN fs w = exportFixed w N OUT Omat := by
  unfold forwardFixed at h
  obtain ⟨inputs, e1, h⟩ := bind_eq_ok h
  obtain ⟨cfgI, e2, h⟩ := bind_eq_ok h
  obtain ⟨Xn, e3, h⟩ := bind_eq_ok h
  obtain ⟨T0, e4, h⟩ := bind_eq_ok h
  obtain ⟨Xnt, e5, h⟩ := bind_eq_ok h
  obtain ⟨HW, e6, h⟩ := bind_eq_ok h
  obtain ⟨HB, e7, h⟩ := bind_eq_ok h
  obtain ⟨W, e8, h⟩ := bind_eq_ok h
  obtain ⟨H, e9, h⟩ := bind_eq_ok h
  obtain ⟨HE, e10, h⟩ := bind_eq_ok h
  obtain ⟨⟨OUT, OW, OB⟩, e11, h⟩ := bind_eq_ok h
  simp only at h
  obtain ⟨O1, e12, e13⟩ := bind_eq_ok h
  obtain ⟨owNums, _, _, _, hOW, _⟩ := resolveOutput_ok e11
  have s := layers_shape e8 e9 e10 e12 e13
  refine ⟨OUT, OW, OB, e11, ?_, ?_⟩
  · rw [s.1, hOW]
  · simp only [bind, Except.bind] at e5
    unfold mainFixed
    simp only [bind, Except.bind, e1, e2, e3, e4, e5, e6, e7, e8, e9, e10, e11, e12, e13]

theorem mainCsv_of_forward (exp : α → α) (fs : CsvFiles α) (w : Bool) (Omat : Matrix α)
    (h : mainCsvOmat exp fs = .ok Omat) :
    ∃ inputs, readCsvMatrix "ANNSFM_inputs.csv" fs.inputs = .ok inputs ∧
      mainCsv exp fs w = exportCsv w inputs.r Omat := by
  unfold mainCsvOmat at h
  obtain ⟨inputs, e1, h⟩ := bind_eq_ok h
  obtain ⟨cfgI, e2, h⟩ := bind_eq_ok h
  obtain ⟨HW, e3, h⟩ := bind_eq_ok h
  obtain ⟨HB, e4, h⟩ := bind_eq_ok h
  obtain ⟨OW, e5, h⟩ := bind_eq_ok h
  obtain ⟨OB, e6, e7⟩ := bind_eq_ok h
  refine ⟨inputs, e1, ?_⟩
  unfold mainCsv
  simp only [bind, Except.bind, e1, e2, e3, e4, e5, e6, e7]

/-- Claim C15, amended. Post-processing differs between the pipeline variants. The fixed-size
pipeline branches on `OUT`: when `OUT == 1` it exports one series, the raw predictions
`Omat(0, n)`, with no `new_O` and no `Y`; when `OUT > 1` it exports the raw `OUT x N` output
matrix unmodified. The CSV pipeline does not branch on `OUT`: for every `OUT >= 1` it exports,
per sample, the three series `O_raw = Omat(0, n)`, `new_O = normalize(O_raw, minO, maxO)` and
`Y = (((O_raw + 1) / 2 * (maxO - minO) + minO) + 0.7) * 100` of the first output row only.
The last two conjuncts tie these exports to the two `main` functions: after a forward pass that
returned `Omat`, `main` returns the export of `Omat` (with the resolved `OUT`, equal to the row
count of `Omat`, in the fixed-size pipeline, and with `N = inputs.r` in the CSV pipeline). -/
theorem export_by_variant (N OUT : Nat) (Omat : Matrix α) (hOUT : 0 < OUT)
    (hr : Omat.r = (OUT : Int)) (hc : Omat.c = (N : Int)) (hl : Omat.a.length = OUT * N) :
    (OUT = 1 → exportFixed true (N : Int) (OUT : Int) Omat =
      .ok (.pred ((List.range N).map (fun n => Omat.entry 0 n)))) ∧
    (OUT ≠ 1 → exportFixed true (N : Int) (OUT : Int) Omat =
      .ok (.predMatrix
        ((List.range OUT).map (fun o => (List.range N).map (fun n => Omat.entry o n))))) ∧
    (0 < N → ∃ maxO minO,
      maxElement ((List.range N).map (fun n => Omat.entry 0 n)) = .ok maxO ∧
      minElement ((List.range N).map (fun n => Omat.entry 0 n)) = .ok minO ∧
      exportCsv true (N : Int) Omat =
        .ok (.validate (((List.range N).map (fun n => Omat.entry 0 n)).map
          (fun o => (o, normalize_bipolar o minO maxO,
            (((o + 1) / 2 * (maxO - minO) + minO) + 0.7) * 100))))) ∧
    (∀ (exp : α → α) (F HN : Int) (fs : TxtFiles α) (w : Bool),
      forwardFixed exp (N : Int) F HN fs = .ok Omat →
        mainFixed exp (N : Int) F HN fs w = exportFixed w (N : Int) (OUT : Int) Omat) ∧
    (∀ (exp : α → α) (fs : CsvFiles α) (w : Bool), mainCsvOmat exp fs = .ok Omat →
      ∃ inputs, readCsvMatrix "ANNSFM_inputs.csv" fs.inputs = .ok inputs ∧
        mainCsv exp fs w = exportCsv w inputs.r Omat) := by
  have hrep := Rep.of_shape hr hc hl
  refine ⟨(exportFixed_ok hrep hOUT).1, (exportFixed_ok hrep hOUT).2,
    fun hN => exportCsv_ok hrep hOUT hN, ?_, fun exp fs w h => mainCsv_of_forward exp fs w Omat h⟩
  intro exp F HN fs w h
  obtain ⟨OUT', OW, OB, _, hO, hmain⟩ := mainFixed_of_forward exp N F HN fs w Omat h
  rw [hmain, hO, hr]

end claims_export

/-- Counterexample to C15 as stated: with `OUT = 1` the fixed-size pipeline exports the raw
series only; with `OUT = 2` the CSV pipeline exports the three series of the first output row
and drops the second row `[1, 2]`. -/
theorem export_by_variant_counterexample :
    exportFixed true 2 1 (⟨1, 2, [5, 7]⟩ : Matrix ℚ) = .ok (.pred [5, 7]) ∧
    exportCsv true 2 (⟨2, 2, [5, 7, 1, 2]⟩ : Matrix ℚ)
      = .ok (.validate [(5, -1, 1170), (7, 1, 1370)]) := by
  refine ⟨by decide!, by decide!⟩

/-- Witness for C15: a `2 x 2` output matrix in the fixed-size pipeline. -/
theorem export_by_variant_witness :
    exportFixed true ((2 : Nat) : Int) ((2 : Nat) : Int) (⟨2, 2, [5, 7, 1, 2]⟩ : Matrix ℚ) =
      .ok (.predMatrix ((List.range 2).map (fun o => (List.range 2).map
        (fun n => Matrix.entry (⟨2, 2, [5, 7, 1, 2]⟩ : Matrix ℚ) o n)))) :=
  (export_by_variant 2 2 (⟨2, 2, [5, 7, 1, 2]⟩ : Matrix ℚ) (by decide) rfl rfl rfl).2.1
    (by decide)

/-! ## Claim C18: the shape checks of the CSV pipeline -/

section claims_checks
variable [LinearOrderedField α]

end claims_checks

/-! ## Claim C17: the simple variant -/

section claims_simple
variable [LinearOrderedField α]

theorem accumulateRow_spec (row x : List α) (i : Nat) (h : List α) (hi : α)
    (h0 : h[i]? = some hi) (hx : row.length ≤ x.length) :
    ∃ s, accumulateRow row x i h = .ok s ∧ s.length = h.length ∧
      s[i]? = some (hi + ∑ j ∈ Finset.range row.length, x.getD j 0 * row.getD j 0) ∧
      ∀ k, k ≠ i → s[k]? = h[k]? := by
  have hlt : i < h.length := by
    by_contra hn
    rw [List.getElem?_eq_none (by omega)] at h0
    cases h0
  exact forLoop_inv
    (fun j (s : List α) => s.length = h.length ∧
      s[i]? = some (hi + ∑ t ∈ Finset.range j, x.getD t 0 * row.getD t 0) ∧
      ∀ k, k ≠ i → s[k]? = h[k]?) row.length
    (fun j s => do
      let a ← vecGet s i
      let xj ← vecGet x j
      let wij ← vecGet row j
      vecSet s i (a + xj * wij)) h
    ⟨rfl, by simpa using h0, fun k _ => rfl⟩
    (by
      intro j s hj ⟨e1, e2, e3⟩
      have hxj : x[j]? = some (x.getD j 0) := by
        rw [List.getD_eq_getElem?_getD, List.getElem?_eq_getElem (by omega)]
        rfl
      have hwj : row[j]? = some (row.getD j 0) := by
        rw [List.getD_eq_getElem?_getD, List.getElem?_eq_getElem hj]
        rfl
      refine ⟨s.set i (hi + ∑ t ∈ Finset.range j, x.getD t 0 * row.getD t 0 +
        x.getD j 0 * row.getD j 0), ?_, by simp [e1], ?_, ?_⟩
      · simp only [vecGet_natCast _ _ _ e2, vecGet_natCast _ _ _ hxj,
          vecGet_natCast _ _ _ hwj, bind, Except.bind, vecSet_natCast _ _ _ (e1 ▸ hlt)]
      · rw [List.getElem?_set_self (e1 ▸ hlt), Finset.sum_range_succ, add_assoc]
      · intro k hk
        rw [List.getElem?_set_ne (fun h => hk h.symm)]
        exact e3 k hk)

theorem denseLayer_ok (exp : α → α) (W : List (List α)) (x : List α)
    (hx : ∀ row, row ∈ W → row.length ≤ x.length) :
    denseLayer exp W x = .ok (W.map (fun row =>
      sigmoid exp (∑ j ∈ Finset.range row.length, x.getD j 0 * row.getD j 0))) := by
  obtain ⟨h, hh, hl, hdone, _⟩ := forLoop_inv
    (fun i (h : List α) => h.length = W.length ∧
      (∀ k, k < i → h[k]? = (W.map (fun row =>
        sigmoid exp (∑ j ∈ Finset.range row.length, x.getD j 0 * row.getD j 0)))[k]?) ∧
      ∀ k, i ≤ k → k < W.length → h[k]? = some 0) W.length
    (fun i h => do
      let row ← vecGet W i
      let h ← accumulateRow row x i h
      let a ← vecGet h i
      vecSet h i (sigmoid exp a)) (List.replicate W.length 0)
    ⟨by simp, fun k hk => absurd hk (Nat.not_lt_zero _), fun k _ hk => by
      simp [List.getElem?_replicate, hk]⟩
    (by
      intro i h hi ⟨e1, e2, e3⟩
      have hrow : W[i]? = some W[i] := List.getElem?_eq_getElem hi
      obtain ⟨s, hs, sl, si, sk⟩ := accumulateRow_spec W[i] x i h 0 (e3 i (le_refl _) hi)
        (hx _ (List.getElem_mem hi))
      have hlt : i < s.length := by rw [sl, e1]; exact hi
      refine ⟨s.set i (sigmoid exp (0 + ∑ j ∈ Finset.range W[i].length,
        x.getD j 0 * W[i].getD j 0)), ?_, by simp [sl, e1], ?_, ?_⟩
      · simp only [vecGet_natCast _ _ _ hrow, hs, vecGet_natCast _ _ _ si, bind, Except.bind,
          vecSet_natCast _ _ _ hlt]
      · intro k hk
        by_cases e : k = i
        · subst e
          rw [List.getElem?_set_self hlt, zero_add]
          simp [List.getElem?_eq_getElem hi]
        · rw [List.getElem?_set_ne (fun h => e h.symm), sk k e]
          exact e2 k (by omega)
      · intro k hk1 hk2
        have e : k ≠ i := by omega
        rw [List.getElem?_set_ne (fun h => e h.symm), sk k e]
        exact e3 k (by omega) hk2)
  rw [denseLayer, hh]
  congr 1
  apply List.ext_getElem?
  intro k
  by_cases hk : k < W.length
  · exact hdone k hk
  · rw [List.getElem?_eq_none (by omega), List.getElem?_eq_none (by simp; omega)]

theorem demo_hidden (exp : α → α) :
    denseLayer exp (demoNetwork : NeuralNetwork α).W1 demoInput =
      .ok [sigmoid exp 1.4, sigmoid exp 3.2, sigmoid exp 5.0] := by
  rw [denseLayer_ok exp _ _ (by simp [demoNetwork, demoInput])]
  simp only [demoNetwork, demoInput, List.map, List.length_cons, List.length_nil,
    Finset.sum_range_succ, Finset.sum_range_zero, List.getD_cons_zero, List.getD_cons_succ]
  norm_num

end claims_simple

section claims_simple2
variable [LinearOrderedField α]

theorem demo_output (exp : α → α) :
    forward exp (demoNetwork : NeuralNetwork α) demoInput =
      .ok [sigmoid exp (0.1 * sigmoid exp 1.4 + 0.2 * sigmoid exp 3.2 + 0.3 * sigmoid exp 5.0),
        sigmoid exp (0.4 * sigmoid exp 1.4 + 0.5 * sigmoid exp 3.2 + 0.6 * sigmoid exp 5.0),
        sigmoid exp (0.7 * sigmoid exp 1.4 + 0.8 * sigmoid exp 3.2 + 0.9 * sigmoid exp 5.0)] := by
  have e : ∀ a b c w1 w2 w3 : α, a * w1 + b * w2 + c * w3 = w1 * a + w2 * b + w3 * c := by
    intros; ring
  have h2 : denseLayer exp (demoNetwork : NeuralNetwork α).W2
      [sigmoid exp 1.4, sigmoid exp 3.2, sigmoid exp 5.0] =
      .ok [sigmoid exp (sigmoid exp 1.4 * 0.1 + sigmoid exp 3.2 * 0.2 + sigmoid exp 5.0 * 0.3),
        sigmoid exp (sigmoid exp 1.4 * 0.4 + sigmoid exp 3.2 * 0.5 + sigmoid exp 5.0 * 0.6),
        sigmoid exp (sigmoid exp 1.4 * 0.7 + sigmoid exp 3.2 * 0.8 + sigmoid exp 5.0 * 0.9)] := by
    rw [denseLayer_ok exp _ _ (by simp [demoNetwork])]
    simp only [demoNetwork, List.map, List.length_cons, List.length_nil,
      Finset.sum_range_succ, Finset.sum_range_zero, List.getD_cons_zero, List.getD_cons_succ,
      zero_add]
  unfold forward
  simp only [demo_hidden, bind, Except.bind, h2]
  rw [e _ _ _ (0.1 : α), e _ _ _ (0.4 : α), e _ _ _ (0.7 : α)]

theorem demo_preactivation (row : List α) (i : Nat) (p : α) (h : List α)
    (hrow : row.length = 3)
    (hp : demoInput.getD 0 0 * row.getD 0 0 + demoInput.getD 1 0 * row.getD 1 0 +
      demoInput.getD 2 0 * row.getD 2 0 = p) (h0 : h[i]? = some 0) :
    ∃ s, accumulateRow row demoInput i h = .ok s ∧ s[i]? = some p := by
  obtain ⟨s, hs, _, hi, _⟩ := accumulateRow_spec row demoInput i h 0 h0
    (by rw [hrow]; simp [demoInput])
  refine ⟨s, hs, ?_⟩
  rw [hi, hrow]
  simp only [Finset.sum_range_succ, Finset.sum_range_zero, zero_add]
  rw [hp]

/-- Claim C17, amended. Concrete scenario of the simple variant: for
`W1 = W2 = [[0.1, 0.2, 0.3], [0.4, 0.5, 0.6], [0.7, 0.8, 0.9]]` and input `[1.0, 2.0, 3.0]`,
`forward` computes the hidden pre-activations exactly `[1.4, 3.2, 5.0]`, activates them with the
logistic sigmoid `s(x) = 1 / (1 + exp(-x))` (the function `sigmoid` of the source, not the
bipolar sigmoid), and computes the 3-element output the same way through the second layer:
`y[i] = s(sum over j of W2[i][j] * s(sum over k of W1[j][k] * x[k]))`. -/
theorem demo_forward (exp : α → α) :
    (∀ h : List α, h[0]? = some 0 →
      ∃ s : List α, accumulateRow [0.1, 0.2, 0.3] demoInput 0 h = .ok s ∧
        s[0]? = some (1.4 : α)) ∧
    (∀ h : List α, h[1]? = some 0 →
      ∃ s : List α, accumulateRow [0.4, 0.5, 0.6] demoInput 1 h = .ok s ∧
        s[1]? = some (3.2 : α)) ∧
    (∀ h : List α, h[2]? = some 0 →
      ∃ s : List α, accumulateRow [0.7, 0.8, 0.9] demoInput 2 h = .ok s ∧
        s[2]? = some (5.0 : α)) ∧
    denseLayer exp (demoNetwork : NeuralNetwork α).W1 demoInput =
      .ok [1 / (1 + exp (-1.4)), 1 / (1 + exp (-3.2)), 1 / (1 + exp (-5.0))] ∧
    forward exp (demoNetwork : NeuralNetwork α) demoInput =
      .ok [sigmoid exp (0.1 * sigmoid exp 1.4 + 0.2 * sigmoid exp 3.2 + 0.3 * sigmoid exp 5.0),
        sigmoid exp (0.4 * sigmoid exp 1.4 + 0.5 * sigmoid exp 3.2 + 0.6 * sigmoid exp 5.0),
        sigmoid exp (0.7 * sigmoid exp 1.4 + 0.8 * sigmoid exp 3.2 + 0.9 * sigmoid exp 5.0)] := by
  refine ⟨fun h h0 => ?_, fun h h0 => ?_, fun h h0 => ?_, demo_hidden exp, demo_output exp⟩
  · exact demo_preactivation _ 0 _ h rfl (by simp [demoInput]; norm_num) h0
  · exact demo_preactivation _ 1 _ h rfl (by simp [demoInput]; norm_num) h0
  · exact demo_preactivation _ 2 _ h rfl (by simp [demoInput]; norm_num) h0

end claims_simple2

/-- Witness for C17: the first accumulation starts from the zero vector. -/
theorem demo_forward_witness :
    ∃ s : List ℚ, accumulateRow [0.1, 0.2, 0.3] (demoInput : List ℚ) 0 [0, 0, 0] = .ok s ∧
      s[0]? = some (1.4 : ℚ) :=
  (demo_forward (fun x : ℚ => 1 + x)).1 [0, 0, 0] (by simp)

/-! ### The logistic and the bipolar sigmoid differ on the demo data -/

theorem exp_neg_le_inv (p c : ℝ) (hc : 0 < c) (h : c ≤ Real.exp p) : Real.exp (-p) ≤ 1 / c := by
  rw [Real.exp_neg, one_div]
  exact inv_anti₀ hc h

theorem logistic_ge (p : ℝ) (hp : 7 / 5 ≤ p) : 7 / 10 ≤ sigmoid Real.exp p := by
  have h1 : (12 / 5 : ℝ) ≤ Real.exp p := by
    have := Real.add_one_le_exp p
    linarith
  have h2 := exp_neg_le_inv p (12 / 5) (by norm_num) h1
  have h3 : 0 < Real.exp (-p) := Real.exp_pos _
  unfold sigmoid
  rw [le_div_iff₀ (by linarith)]
  norm_num at h2
  linarith

theorem logistic_gt (z : ℝ) (hz : 21 / 50 ≤ z) : 3 / 5 < sigmoid Real.exp z := by
  have h0 : (0 : ℝ) ≤ z := by linarith
  have h1 : (3 / 2 : ℝ) < Real.exp z := by
    have := Real.quadratic_le_exp_of_nonneg h0
    nlinarith
  have h3 : 0 < Real.exp (-z) := Real.exp_pos _
  have h2 : Real.exp (-z) < 2 / 3 := by
    rw [Real.exp_neg, inv_lt_comm₀ (by linarith) (by norm_num)]
    norm_num
    linarith
  unfold sigmoid
  rw [lt_div_iff₀ (by linarith)]
  linarith

theorem bipolar_lt_one (p : ℝ) : sigmoidExpr Real.exp p < 1 := by
  have h3 : 0 < Real.exp (-2 * p) := Real.exp_pos _
  unfold sigmoidExpr
  have : 2 / (1 + Real.exp (-2 * p)) < 2 := by
    rw [div_lt_iff₀ (by linarith)]
    linarith
  linarith

theorem bipolar_lt (w : ℝ) (hw : w < 3 / 5) : sigmoidExpr Real.exp w < 3 / 5 := by
  have h1 : (4 / 5 : ℝ) ≤ Real.exp (-(1 / 5)) := by
    have := Real.one_sub_le_exp_neg (1 / 5)
    linarith
  have h2 : Real.exp (-(6 / 5)) = Real.exp (-(1 / 5)) ^ 6 := by
    rw [← Real.exp_nat_mul]
    congr 1
    norm_num
  have h3 : (1 / 4 : ℝ) < Real.exp (-(6 / 5)) := by
    rw [h2]
    calc (1 / 4 : ℝ) < (4 / 5) ^ 6 := by norm_num
      _ ≤ Real.exp (-(1 / 5)) ^ 6 := pow_le_pow_left₀ (by norm_num) h1 6
  have h4 : Real.exp (-(6 / 5)) < Real.exp (-2 * w) := by
    rw [Real.exp_lt_exp]
    linarith
  unfold sigmoidExpr
  have : 2 / (1 + Real.exp (-2 * w)) < 8 / 5 := by
    rw [div_lt_iff₀ (by linarith)]
    linarith
  linarith

theorem logistic_lt_bipolar_demo : sigmoid Real.exp 1.4 < sigmoidExpr Real.exp 1.4 := by
  have h1 : (3 : ℝ) ≤ Real.exp 1.4 := by
    have := Real.quadratic_le_exp_of_nonneg (show (0 : ℝ) ≤ 1.4 by norm_num)
    norm_num at this ⊢
    linarith
  have ht : Real.exp (-1.4) ≤ 1 / 3 := exp_neg_le_inv 1.4 3 (by norm_num) h1
  have hpos : 0 < Real.exp (-1.4) := Real.exp_pos _
  have hsq : Real.exp (-2 * 1.4) = Real.exp (-1.4) * Real.exp (-1.4) := by
    rw [← Real.exp_add]
    congr 1
    ring
  unfold sigmoid sigmoidExpr
  rw [hsq]
  generalize Real.exp (-1.4) = t at ht hpos
  have hd1 : 0 < 1 + t := by linarith
  have hd2 : 0 < 1 + t * t := by nlinarith
  rw [lt_sub_iff_add_lt, div_add' _ _ _ (ne_of_gt hd1), div_lt_div_iff hd1 hd2]
  nlinarith [mul_pos hpos hpos, mul_pos (mul_pos hpos hpos) hpos]

/-- Counterexample to C17 as stated: over the reals, the hidden activations and the output that
`forward` computes on the demo data are not those of the bipolar sigmoid; the first output is
above `0.6` and the claimed value is below it. -/
theorem demo_forward_counterexample :
    denseLayer Real.exp (demoNetwork : NeuralNetwork ℝ).W1 demoInput ≠
      .ok [sigmoidExpr Real.exp 1.4, sigmoidExpr Real.exp 3.2, sigmoidExpr Real.exp 5.0] ∧
    forward Real.exp (demoNetwork : NeuralNetwork ℝ) demoInput ≠
      .ok [sigmoidExpr Real.exp (0.1 * sigmoidExpr Real.exp 1.4 +
            0.2 * sigmoidExpr Real.exp 3.2 + 0.3 * sigmoidExpr Real.exp 5.0),
          sigmoidExpr Real.exp (0.4 * sigmoidExpr Real.exp 1.4 +
            0.5 * sigmoidExpr Real.exp 3.2 + 0.6 * sigmoidExpr Real.exp 5.0),
          sigmoidExpr Real.exp (0.7 * sigmoidExpr Real.exp 1.4 +
            0.8 * sigmoidExpr Real.exp 3.2 + 0.9 * sigmoidExpr Real.exp 5.0)] := by
  constructor
  · rw [demo_hidden]
    intro h
    have h0 : sigmoid Real.exp 1.4 = sigmoidExpr Real.exp 1.4 := by
      injection h with h
      injection h with h _
    exact absurd h0 (ne_of_lt logistic_lt_bipolar_demo)
  · rw [demo_output]
    intro h
    have h0 : sigmoid Real.exp (0.1 * sigmoid Real.exp 1.4 + 0.2 * sigmoid Real.exp 3.2 +
          0.3 * sigmoid Real.exp 5.0) =
        sigmoidExpr Real.exp (0.1 * sigmoidExpr Real.exp 1.4 +
          0.2 * sigmoidExpr Real.exp 3.2 + 0.3 * sigmoidExpr Real.exp 5.0) := by
      injection h with h
      injection h with h _
    have s1 := logistic_ge 1.4 (by norm_num)
    have s2 := logistic_ge 3.2 (by norm_num)
    have s3 := logistic_ge 5.0 (by norm_num)
    have b1 := bipolar_lt_one 1.4
    have b2 := bipolar_lt_one 3.2
    have b3 := bipolar_lt_one 5.0
    have hy := logistic_gt (0.1 * sigmoid Real.exp 1.4 + 0.2 * sigmoid Real.exp 3.2 +
      0.3 * sigmoid Real.exp 5.0) (by norm_num at s1 s2 s3 ⊢; linarith)
    have hc := bipolar_lt (0.1 * sigmoidExpr Real.exp 1.4 + 0.2 * sigmoidExpr Real.exp 3.2 +
      0.3 * sigmoidExpr Real.exp 5.0) (by norm_num at b1 b2 b3 ⊢; linarith)
    rw [h0] at hy
    linarith

end StormTide
